import Mathlib

/-!
Verification of the docling-graph delta/staged extraction core against its
natural-language specification.

The development shallowly embeds the Python source:

* `docling_graph/extractors/utils.py` (`deep_merge_dicts`, `merge_lists`,
  `merge_dict_lists`, `merge_pydantic_models`) over a JSON-like `Value` type;
* `scripts/graph_converter.py` (`GraphConverter._get_node_id`) together with
  executable SHA-256 and BLAKE2b implementations, so that the spec's claimed
  NodeID formula can be compared with the code's actual formula;
* components whose implementation files are not part of the source tree
  (template projector, node-id registry, chunk batcher, many-to-one
  orchestrator) are modelled from the specification text; each such
  definition is marked `Modelled from the spec:` in its doc comment.

Python values are modelled by the `Value` type below.  Python dictionaries
are insertion-ordered association lists with unique keys (all dictionaries
in the pipeline come from JSON objects / pydantic model dumps, which have
unique string keys).  Python `==` on this JSON-like fragment is structural
equality, provided by the hand-rolled `Value.beq` below.
-/

namespace DoclingGraph

/-- A JSON-like Python value: `None`, strings, integers, lists and
(insertion-ordered) string-keyed dictionaries.  This is the value fragment
handled by `deep_merge_dicts` in `docling_graph/extractors/utils.py`. -/
inductive Value where
  | none : Value
  | str (s : String) : Value
  | int (n : Int) : Value
  | list (xs : List Value) : Value
  | dict (kvs : List (String × Value)) : Value

mutual

/-- Structural equality on `Value` (Python `==` on the JSON-like fragment,
dictionaries taken in insertion order). -/
def Value.beq : Value → Value → Bool
  | .none, .none => true
  | .str a, .str b => a == b
  | .int a, .int b => a == b
  | .list xs, .list ys => Value.beqList xs ys
  | .dict d1, .dict d2 => Value.beqDict d1 d2
  | _, _ => false
  termination_by a _ => sizeOf a

/-- Pointwise equality of value lists. -/
def Value.beqList : List Value → List Value → Bool
  | [], [] => true
  | x :: xs, y :: ys => Value.beq x y && Value.beqList xs ys
  | _, _ => false
  termination_by a _ => sizeOf a

/-- Pointwise equality of dictionaries (keys and values in order). -/
def Value.beqDict : List (String × Value) → List (String × Value) → Bool
  | [], [] => true
  | (k1, v1) :: xs, (k2, v2) :: ys => k1 == k2 && Value.beq v1 v2 && Value.beqDict xs ys
  | _, _ => false
  termination_by a _ => sizeOf a

end

instance : BEq Value := ⟨Value.beq⟩

mutual

theorem Value.beq_refl : ∀ a : Value, Value.beq a a = true
  | .none => by simp [Value.beq]
  | .str a => by simp [Value.beq]
  | .int a => by simp [Value.beq]
  | .list xs => by simp [Value.beq, Value.beqList_refl xs]
  | .dict d => by simp [Value.beq, Value.beqDict_refl d]
  termination_by a => sizeOf a

theorem Value.beqList_refl : ∀ xs : List Value, Value.beqList xs xs = true
  | [] => by simp [Value.beqList]
  | x :: xs => by simp [Value.beqList, Value.beq_refl x, Value.beqList_refl xs]
  termination_by a => sizeOf a

theorem Value.beqDict_refl : ∀ d : List (String × Value), Value.beqDict d d = true
  | [] => by simp [Value.beqDict]
  | (k, v) :: d => by simp [Value.beqDict, Value.beq_refl v, Value.beqDict_refl d]
  termination_by a => sizeOf a

end

mutual

theorem Value.beq_sound : ∀ a b : Value, Value.beq a b = true → a = b
  | .none, .none, _ => rfl
  | .str a, .str b, h => by simpa [Value.beq] using congrArg Value.str (by simpa [Value.beq] using h)
  | .int a, .int b, h => by simpa [Value.beq] using congrArg Value.int (by simpa [Value.beq] using h)
  | .list xs, .list ys, h => congrArg Value.list (Value.beqList_sound xs ys (by simpa [Value.beq] using h))
  | .dict d1, .dict d2, h => congrArg Value.dict (Value.beqDict_sound d1 d2 (by simpa [Value.beq] using h))
  | .none, .str _, h | .none, .int _, h | .none, .list _, h | .none, .dict _, h
  | .str _, .none, h | .str _, .int _, h | .str _, .list _, h | .str _, .dict _, h
  | .int _, .none, h | .int _, .str _, h | .int _, .list _, h | .int _, .dict _, h
  | .list _, .none, h | .list _, .str _, h | .list _, .int _, h | .list _, .dict _, h
  | .dict _, .none, h | .dict _, .str _, h | .dict _, .int _, h | .dict _, .list _, h =>
      by simp [Value.beq] at h
  termination_by a _ _ => sizeOf a

theorem Value.beqList_sound : ∀ xs ys : List Value, Value.beqList xs ys = true → xs = ys
  | [], [], _ => rfl
  | x :: xs, y :: ys, h => by
      have h1 : Value.beq x y = true ∧ Value.beqList xs ys = true := by
        simpa [Value.beqList, Bool.and_eq_true] using h
      rw [Value.beq_sound x y h1.1, Value.beqList_sound xs ys h1.2]
  | [], _ :: _, h => by simp [Value.beqList] at h
  | _ :: _, [], h => by simp [Value.beqList] at h
  termination_by a _ _ => sizeOf a

theorem Value.beqDict_sound :
    ∀ d1 d2 : List (String × Value), Value.beqDict d1 d2 = true → d1 = d2
  | [], [], _ => rfl
  | (k1, v1) :: xs, (k2, v2) :: ys, h => by
      have h1 : (k1 == k2) = true ∧ Value.beq v1 v2 = true ∧ Value.beqDict xs ys = true := by
        simpa [Value.beqDict, Bool.and_eq_true, and_assoc] using h
      have hk : k1 = k2 := by simpa using h1.1
      rw [hk, Value.beq_sound v1 v2 h1.2.1, Value.beqDict_sound xs ys h1.2.2]
  | [], _ :: _, h => by simp [Value.beqDict] at h
  | _ :: _, [], h => by simp [Value.beqDict] at h
  termination_by a _ _ => sizeOf a

end

instance : LawfulBEq Value where
  eq_of_beq h := Value.beq_sound _ _ h
  rfl := Value.beq_refl _

/-- A Python dictionary: insertion-ordered association list. -/
abbrev Dict := List (String × Value)

/-- `value is None or value == "" or value == [] or value == {}` from
`deep_merge_dicts`: the emptiness test used to skip source values and to
decide whether a scalar target value may be overwritten. -/
def isEmptyVal : Value → Bool
  | .none => true
  | .str s => s == ""
  | .int _ => false
  | .list xs => xs.isEmpty
  | .dict d => d.isEmpty

/-- Python truthiness on `Value` (used for `if item_id:` in
`merge_dict_lists`). -/
def pyTruthy : Value → Bool
  | .none => false
  | .str s => s != ""
  | .int n => n != 0
  | .list xs => !xs.isEmpty
  | .dict d => !d.isEmpty

/-- A value is hashable in Python iff it is not a list or dict (on this
fragment).  `merge_lists` tries set-based deduplication first and falls back
when `set(...)`/membership raises `TypeError` on an unhashable element. -/
def isHashable : Value → Bool
  | .list _ => false
  | .dict _ => false
  | _ => true

/-- `isinstance(item, dict)`. -/
def isDict : Value → Bool
  | .dict _ => true
  | _ => false

/-- First-occurrence lookup in an insertion-ordered dictionary
(`d.get(k)` / `k in d`). -/
def getKey (d : Dict) (k : String) : Option Value :=
  match d with
  | [] => Option.none
  | (k0, v0) :: rest => if k0 == k then some v0 else getKey rest k

/-- `d[k] = v` on an insertion-ordered dictionary: replaces the value at an
existing key in place, otherwise appends the binding at the end. -/
def setKey (d : Dict) (k : String) (v : Value) : Dict :=
  match d with
  | [] => [(k, v)]
  | (k0, v0) :: rest => if k0 == k then (k0, v) :: rest else (k0, v0) :: setKey rest k v

/-- Set-based deduplicating list merge: `result = list1.copy()` then append
each item of `list2` not already present (`item not in existing_items`,
where the set of existing items always equals the set of elements of the
result built so far). -/
def setDedup (l1 : List Value) : List Value → List Value
  | [] => l1
  | it :: rest => if l1.contains it then setDedup l1 rest else setDedup (l1 ++ [it]) rest

/-- `item.get('id')` on a list element known to be a dict;
`Option.none` when the element is not a dict or the key is absent. -/
def getIdV (v : Value) : Option Value :=
  match v with
  | .dict d => getKey d "id"
  | _ => Option.none

/-- Insert-or-replace in the `merged_by_id` insertion-ordered mapping
(`merged_by_id[item_id] = item`): replacement keeps the original position. -/
def setAssoc (m : List (Value × Value)) (k : Value) (v : Value) : List (Value × Value) :=
  match m with
  | [] => [(k, v)]
  | (k0, v0) :: rest => if k0 == k then (k0, v) :: rest else (k0, v0) :: setAssoc rest k v

/-- Membership of `k` among the keys of `merged_by_id`. -/
def hasAssoc (m : List (Value × Value)) (k : Value) : Bool :=
  match m with
  | [] => false
  | (k0, _) :: rest => k0 == k || hasAssoc rest k

/-- Loop body of the first loop of `merge_dict_lists`, accumulating
`merged_by_id` from an initial mapping. -/
def buildByIdFrom (acc : List (Value × Value)) : List Value → List (Value × Value)
  | [] => acc
  | item :: rest =>
    match getIdV item with
    | some idv =>
      if pyTruthy idv then buildByIdFrom (setAssoc acc idv item) rest
      else buildByIdFrom acc rest
    | Option.none => buildByIdFrom acc rest

/-- First loop of `merge_dict_lists`: `merged_by_id[item_id] = deepcopy(item)`
for every item of `list1` with a truthy `id`. -/
def buildById (l1 : List Value) : List (Value × Value) :=
  buildByIdFrom [] l1

/-- Trailing loops of `merge_dict_lists`: items of `list1` whose `id` is
absent or falsy are re-appended after the merged-by-id block. -/
def noIdItems (l : List Value) : List Value :=
  l.filter (fun item =>
    match getIdV item with
    | some idv => !pyTruthy idv
    | Option.none => true)

/-- `any('id' in d for d in list1 + list2)` — presence (not truthiness) of
the `id` key decides which branch `merge_dict_lists` takes. -/
def hasIds (l1 l2 : List Value) : Bool :=
  (l1 ++ l2).any (fun item =>
    match item with
    | .dict d => (getKey d "id").isSome
    | _ => false)

/-- Fallback branch of `merge_lists` and the no-ids branch of
`merge_dict_lists`: append the items of `list2` that are not `==`-present
in the result. -/
def appendUnique (l1 : List Value) : List Value → List Value
  | [] => l1
  | it :: rest => if l1.contains it then appendUnique l1 rest else appendUnique (l1 ++ [it]) rest

/-- Reassemble the result of `merge_dict_lists`:
`list(merged_by_id.values())`, then the items of `list1` with an absent or
falsy `id`, then `items_without_id` collected from `list2`. -/
def assembleById (p : List (Value × Value) × List Value) (l1 : List Value) : List Value :=
  (p.1.map Prod.snd) ++ noIdItems l1 ++ p.2

/-- Prepend an id-less item of `list2` to the `items_without_id` component. -/
def pushWithout (p : List (Value × Value) × List Value) (item : Value) :
    List (Value × Value) × List Value :=
  (p.1, item :: p.2)

mutual

/-- Shallow embedding of `deep_merge_dicts` from
`docling_graph/extractors/utils.py`: iterate over `source` in insertion
order, folding each binding into the target with `mergeOne`. -/
def deepMergeDicts (target src : Dict) : Dict :=
  match src with
  | [] => target
  | (k, sv) :: rest => deepMergeDicts (mergeOne target k sv) rest
  termination_by (sizeOf src, 0)

/-- One iteration of the `deep_merge_dicts` loop: skip empty source values;
add new keys at the end; merge list values with `merge_lists`; recursively
merge dict values; overwrite an existing scalar only when the current target
value is empty (first non-empty wins). -/
def mergeOne (target : Dict) (k : String) (sv : Value) : Dict :=
  if isEmptyVal sv then target
  else
    match getKey target k with
    | Option.none => target ++ [(k, sv)]
    | some tv =>
      match tv, sv with
      | .list tl, .list sl => setKey target k (.list (mergeLists tl sl))
      | .dict td, .dict sd => setKey target k (.dict (deepMergeDicts td sd))
      | _, _ => if isEmptyVal tv then setKey target k sv else target
  termination_by (sizeOf sv, 5)

/-- Shallow embedding of `merge_lists`: short-circuit on an empty operand;
set-based dedup when every element is hashable; `merge_dict_lists` when every
element is a dict; otherwise plain append-unique. -/
def mergeLists (l1 l2 : List Value) : List Value :=
  if l2.isEmpty then l1
  else if l1.isEmpty then l2
  else if (l1 ++ l2).all isHashable then setDedup l1 l2
  else if (l1 ++ l2).all isDict then
    if hasIds l1 l2 then mergeDictLists l1 l2
    else appendUnique l1 l2
  else appendUnique l1 l2
  termination_by (sizeOf l2, 4)

/-- Shallow embedding of the by-id branch of `merge_dict_lists`. -/
def mergeDictLists (l1 l2 : List Value) : List Value :=
  assembleById (procById (buildById l1) l2) l1
  termination_by (sizeOf l2, 3)

/-- Second loop of `merge_dict_lists`: for every item of `list2` with a
truthy `id`, deep-merge it into the entry with the same id (or insert it);
items with an absent or falsy `id` are collected in `items_without_id`. -/
def procById (byId : List (Value × Value)) (l2 : List Value) :
    List (Value × Value) × List Value :=
  match l2 with
  | [] => (byId, [])
  | item :: rest =>
    match getIdV item with
    | some idv =>
      if pyTruthy idv then procById (stepById byId idv item) rest
      else pushWithout (procById byId rest) item
    | Option.none => pushWithout (procById byId rest) item
  termination_by (sizeOf l2, 2)

/-- Process one truthy-id item of `list2`: deep-merge into the existing
entry with the same id, or insert the item as a new entry. -/
def stepById (byId : List (Value × Value)) (idv : Value) (item : Value) :
    List (Value × Value) :=
  if hasAssoc byId idv then
    match item with
    | .dict d => mergeInto byId idv d
    | .none => byId
    | .str _ => byId
    | .int _ => byId
    | .list _ => byId
  else setAssoc byId idv item
  termination_by (sizeOf item, 6)

/-- `deep_merge_dicts(merged_by_id[item_id], item)`: replace the entry at
`idv` by the deep merge of its dict payload with `item`'s dict payload. -/
def mergeInto (byId : List (Value × Value)) (idv : Value) (d : Dict) :
    List (Value × Value) :=
  match byId with
  | [] => []
  | (k0, v0) :: rest =>
    if k0 == idv then
      match v0 with
      | .dict d0 => (k0, .dict (deepMergeDicts d0 d)) :: rest
      | .none => (k0, v0) :: rest
      | .str _ => (k0, v0) :: rest
      | .int _ => (k0, v0) :: rest
      | .list _ => (k0, v0) :: rest
    else (k0, v0) :: mergeInto rest idv d
  termination_by (sizeOf d, 1 + sizeOf byId)

end

/-- The id value of a list item, `None` when absent (`item.get('id')`). -/
def idOf (v : Value) : Value := (getIdV v).getD Value.none

/-- The item carries a truthy `id` (`if item_id:` succeeds). -/
def truthyIdOf (v : Value) : Bool := pyTruthy (idOf v)

/-- The ids of the items of a list are pairwise distinct. -/
def distinctIds : List Value → Bool
  | [] => true
  | x :: xs => (!xs.any (fun y => idOf y == idOf x)) && distinctIds xs

/-- Keys of a dictionary are pairwise distinct; Python dictionaries always
satisfy this by construction. -/
def nodupKeys : Dict → Bool
  | [] => true
  | (k, _) :: rest => (!rest.any (fun p => p.1 == k)) && nodupKeys rest

/-- Shape condition on a list value under which merging the list with an
equal copy of itself is the identity: lists of hashable scalars always
qualify; lists of dicts qualify when either no element carries an `id` key
or every element carries a distinct truthy `id`; mixed lists always qualify
(they take the append-unique fallback). -/
def goodShape (xs : List Value) : Bool :=
  if xs.all isHashable then true
  else if xs.all isDict then
    (!(hasIds xs [])) || (xs.all truthyIdOf && distinctIds xs)
  else true

mutual

/-- Well-formedness of a value for the merge idempotence law: dictionaries
have unique keys and every nested list satisfies `goodShape`. -/
def goodV : Value → Bool
  | .none => true
  | .str _ => true
  | .int _ => true
  | .list xs => goodShape xs && goodVList xs
  | .dict d => nodupKeys d && goodVDict d
  termination_by v => sizeOf v

/-- `goodV` holds of every element of the list. -/
def goodVList : List Value → Bool
  | [] => true
  | x :: xs => goodV x && goodVList xs
  termination_by l => sizeOf l

/-- `goodV` holds of every value of the dictionary. -/
def goodVDict : Dict → Bool
  | [] => true
  | (_, v) :: d => goodV v && goodVDict d
  termination_by d => sizeOf d

end

/-- First-occurrence lookup in the `merged_by_id` mapping. -/
def findAssoc (m : List (Value × Value)) (k : Value) : Option Value :=
  match m with
  | [] => Option.none
  | (k0, v0) :: rest => if k0 == k then some v0 else findAssoc rest k

/-- A pydantic model instance as seen by `merge_pydantic_models`: its class
name and its `model_dump()` dictionary. -/
structure PModel where
  cls : String
  data : Dict

/-- Shallow embedding of `merge_pydantic_models` from
`docling_graph/extractors/utils.py`: `None` on an empty list, the single
instance itself on a one-element list, otherwise a fresh instance of the
template class built by deep-merging all model dumps into `{}`. -/
def mergePydanticModels (models : List PModel) (templateClass : String) : Option PModel :=
  match models with
  | [] => Option.none
  | [m] => some m
  | _ => some ⟨templateClass, models.foldl (fun acc m => deepMergeDicts acc m.data) []⟩

/-- A property map whose `tags` list mixes an id-bearing dict with an
id-less dict: merging it with an equal copy of itself duplicates the
id-less item. -/
def mergeSelfCounterexampleDict : Dict :=
  [("tags", Value.list
      [Value.dict [("id", Value.str "a")], Value.dict [("x", Value.int 1)]])]

theorem getKey_append_of_some {d1 : Dict} {k : String} {v : Value}
    (h : getKey d1 k = some v) (d2 : Dict) : getKey (d1 ++ d2) k = some v := by
  induction d1 with
  | nil => simp [getKey] at h
  | cons p rest ih =>
      obtain ⟨k0, v0⟩ := p
      by_cases hk : (k0 == k) = true
      · simp [getKey, hk] at h ⊢; exact h
      · simp [getKey, hk] at h ⊢; exact ih h

theorem getKey_append_of_none {d1 : Dict} {k : String}
    (h : getKey d1 k = Option.none) (d2 : Dict) : getKey (d1 ++ d2) k = getKey d2 k := by
  induction d1 with
  | nil => simp
  | cons p rest ih =>
      obtain ⟨k0, v0⟩ := p
      by_cases hk : (k0 == k) = true
      · simp [getKey, hk] at h
      · simp [getKey, hk] at h ⊢; exact ih h

theorem getKey_setKey_self (d : Dict) (k : String) (v : Value) :
    getKey (setKey d k v) k = some v := by
  induction d with
  | nil => simp [setKey, getKey]
  | cons p rest ih =>
      obtain ⟨k0, v0⟩ := p
      by_cases hk : (k0 == k) = true
      · simp [setKey, getKey, hk]
      · simp [setKey, getKey, hk, ih]

theorem getKey_setKey_ne (d : Dict) {k1 k : String} (v : Value) (h : k1 ≠ k) :
    getKey (setKey d k1 v) k = getKey d k := by
  induction d with
  | nil => simp [setKey, getKey, h]
  | cons p rest ih =>
      obtain ⟨k0, v0⟩ := p
      by_cases hk : (k0 == k1) = true
      · have hk0 : k0 = k1 := by simpa using hk
        have : (k0 == k) = false := by simp [hk0, h]
        simp [setKey, getKey, hk, this]
      · by_cases hk2 : (k0 == k) = true
        · simp [setKey, getKey, hk, hk2]
        · simp [setKey, getKey, hk, hk2, ih]

theorem setKey_getKey_self {d : Dict} {k : String} {v : Value}
    (h : getKey d k = some v) : setKey d k v = d := by
  induction d with
  | nil => simp [getKey] at h
  | cons p rest ih =>
      obtain ⟨k0, v0⟩ := p
      by_cases hk : (k0 == k) = true
      · simp [getKey, hk] at h; simp [setKey, hk, h]
      · simp [getKey, hk] at h; simp [setKey, hk, ih h]

theorem getKey_mergeOne_ne (t : Dict) {k1 k : String} (sv : Value) (h : k1 ≠ k) :
    getKey (mergeOne t k1 sv) k = getKey t k := by
  rw [mergeOne]
  split
  · rfl
  · split
    · rcases hGk : getKey t k with _ | w
      · rw [getKey_append_of_none hGk, getKey, if_neg (by simp [h]), getKey]
      · exact getKey_append_of_some hGk _
    · split
      · exact getKey_setKey_ne t _ h
      · exact getKey_setKey_ne t _ h
      · split
        · exact getKey_setKey_ne t _ h
        · rfl

theorem mergeOne_scalar_keep {t : Dict} {k : String} {tv : Value} (sv : Value)
    (hget : getKey t k = some tv) (hh : isHashable tv = true)
    (hne : isEmptyVal tv = false) : mergeOne t k sv = t := by
  rw [mergeOne]
  split
  · rfl
  · rw [hget]
    cases tv with
    | none => simp [isEmptyVal] at hne
    | str s => cases sv <;> simp [hne]
    | int n => cases sv <;> simp [hne]
    | list l => simp [isHashable] at hh
    | dict d => simp [isHashable] at hh

theorem mergeOne_scalar_overwrite {t : Dict} {k : String} {tv sv : Value}
    (hget : getKey t k = some tv) (hh : isHashable tv = true)
    (hemp : isEmptyVal tv = true) (hsv : isEmptyVal sv = false) :
    mergeOne t k sv = setKey t k sv := by
  rw [mergeOne, if_neg (by simp [hsv]), hget]
  cases tv with
  | none => cases sv <;> simp [hemp]
  | str s => cases sv <;> simp [hemp]
  | int n => cases sv <;> simp [hemp]
  | list l => simp [isHashable] at hh
  | dict d => simp [isHashable] at hh

theorem deepMergeDicts_cons (t : Dict) (k : String) (sv : Value) (rest : Dict) :
    deepMergeDicts t ((k, sv) :: rest) = deepMergeDicts (mergeOne t k sv) rest := by
  rw [deepMergeDicts]

theorem deepMergeDicts_nil (t : Dict) : deepMergeDicts t [] = t := by
  rw [deepMergeDicts]

theorem deepMerge_keeps_scalar (src : Dict) :
    ∀ (t : Dict) {k : String} {tv : Value}, getKey t k = some tv →
      isHashable tv = true → isEmptyVal tv = false →
      getKey (deepMergeDicts t src) k = some tv := by
  induction src with
  | nil => intro t k tv h _ _; rw [deepMergeDicts_nil]; exact h
  | cons p rest ih =>
      intro t k tv hget hh hne
      obtain ⟨k1, sv⟩ := p
      rw [deepMergeDicts_cons]
      by_cases hk : k1 = k
      · subst hk
        exact ih _ (by rw [mergeOne_scalar_keep sv hget hh hne]; exact hget) hh hne
      · exact ih _ (by rw [getKey_mergeOne_ne t sv hk]; exact hget) hh hne

theorem getKey_deepMerge_of_not_mem (src : Dict) :
    ∀ (t : Dict) {k : String}, (∀ p ∈ src, p.1 ≠ k) →
      getKey (deepMergeDicts t src) k = getKey t k := by
  induction src with
  | nil => intro t k _; rw [deepMergeDicts_nil]
  | cons p rest ih =>
      intro t k hnm
      obtain ⟨k1, sv⟩ := p
      have h1 : k1 ≠ k := hnm (k1, sv) (by simp)
      rw [deepMergeDicts_cons, ih _ (fun q hq => hnm q (by simp [hq]))]
      exact getKey_mergeOne_ne t sv h1

theorem nodupKeys_cons {k : String} {v : Value} {rest : Dict}
    (h : nodupKeys ((k, v) :: rest) = true) :
    (∀ p ∈ rest, p.1 ≠ k) ∧ nodupKeys rest = true := by
  simp only [nodupKeys, Bool.and_eq_true, Bool.not_eq_true'] at h
  refine ⟨fun p hp hpk => ?_, h.2⟩
  have := List.any_eq_false.mp h.1 p hp
  simp [hpk] at this

theorem deepMerge_fills_empty_scalar (src : Dict) :
    ∀ (t : Dict) {k : String} {tv sv : Value}, getKey t k = some tv →
      isHashable tv = true → isEmptyVal tv = true →
      nodupKeys src = true → getKey src k = some sv → isEmptyVal sv = false →
      getKey (deepMergeDicts t src) k = some sv := by
  induction src with
  | nil => intro t k tv sv _ _ _ _ hsrc _; simp [getKey] at hsrc
  | cons p rest ih =>
      intro t k tv sv hget hh hemp hnd hsrc hsv
      obtain ⟨k1, s1⟩ := p
      have hnd2 := nodupKeys_cons hnd
      rw [deepMergeDicts_cons]
      by_cases hk : k1 = k
      · subst hk
        have hs1 : s1 = sv := by simpa [getKey] using hsrc
        subst hs1
        rw [getKey_deepMerge_of_not_mem rest _ hnd2.1,
          mergeOne_scalar_overwrite hget hh hemp hsv]
        exact getKey_setKey_self t k1 s1
      · have hsrc2 : getKey rest k = some sv := by
          simpa [getKey, show (k1 == k) = false by simp [hk]] using hsrc
        exact ih _ (by rw [getKey_mergeOne_ne t s1 hk]; exact hget) hh hemp hnd2.2 hsrc2 hsv

/-- **C6**: in `deep_merge_dicts`, scalar properties follow
first-non-empty-wins.  A key whose target value is a non-empty scalar keeps
the target's value no matter what the source holds; the source's value is
taken exactly when the target's scalar value is empty (`None`, `""`, `[]`,
`{}`) and the source value is non-empty. -/
theorem deep_merge_scalar_first_non_empty_wins
    (target source : Dict) (k : String) (tv : Value)
    (hget : getKey target k = some tv) (hscalar : isHashable tv = true) :
    (isEmptyVal tv = false → getKey (deepMergeDicts target source) k = some tv) ∧
    (isEmptyVal tv = true → nodupKeys source = true →
      ∀ sv, getKey source k = some sv → isEmptyVal sv = false →
        getKey (deepMergeDicts target source) k = some sv) :=
  ⟨fun hne => deepMerge_keeps_scalar source target hget hscalar hne,
   fun hemp hnd sv hsrc hsv =>
     deepMerge_fills_empty_scalar source target hget hscalar hemp hnd hsrc hsv⟩

/-- Witness for `deep_merge_scalar_first_non_empty_wins`: the non-empty
target value `5` at `count` survives a source value `10`, and the empty
target value `""` at `note` is filled from the source. -/
theorem deep_merge_scalar_first_non_empty_wins_witness :
    getKey (deepMergeDicts [("count", Value.int 5), ("note", Value.str "")]
        [("count", Value.int 10), ("note", Value.str "hi")]) "count" = some (Value.int 5) ∧
    getKey (deepMergeDicts [("count", Value.int 5), ("note", Value.str "")]
        [("count", Value.int 10), ("note", Value.str "hi")]) "note" = some (Value.str "hi") :=
  ⟨(deep_merge_scalar_first_non_empty_wins
      [("count", Value.int 5), ("note", Value.str "")]
      [("count", Value.int 10), ("note", Value.str "hi")]
      "count" (Value.int 5) rfl rfl).1 rfl,
   (deep_merge_scalar_first_non_empty_wins
      [("count", Value.int 5), ("note", Value.str "")]
      [("count", Value.int 10), ("note", Value.str "hi")]
      "note" (Value.str "") rfl rfl).2 rfl rfl (Value.str "hi") rfl rfl⟩

theorem appendUnique_of_subset : ∀ (l2 acc : List Value), (∀ x ∈ l2, x ∈ acc) →
    appendUnique acc l2 = acc := by
  intro l2
  induction l2 with
  | nil => intro acc _; rfl
  | cons x rest ih =>
      intro acc hsub
      have hx : acc.contains x = true := by
        have : x ∈ acc := hsub x (by simp)
        simpa [List.elem_iff] using this
      rw [appendUnique, if_pos hx]
      exact ih acc (fun y hy => hsub y (by simp [hy]))

theorem setDedup_of_subset (l2 acc : List Value) (h : ∀ x ∈ l2, x ∈ acc) :
    setDedup acc l2 = acc := by
  induction l2 generalizing acc with
  | nil => rfl
  | cons x rest ih =>
      have hx : acc.contains x = true := by
        have : x ∈ acc := h x (by simp)
        simpa [List.elem_iff] using this
      rw [setDedup, if_pos hx]
      exact ih acc (fun y hy => h y (by simp [hy]))

theorem getKey_of_mem_nodup : ∀ {d : Dict} {k : String} {v : Value},
    nodupKeys d = true → (k, v) ∈ d → getKey d k = some v := by
  intro d
  induction d with
  | nil => intro k v _ hm; simp at hm
  | cons p rest ih =>
      intro k v hnd hm
      obtain ⟨k0, v0⟩ := p
      have hnd2 := nodupKeys_cons hnd
      rcases List.mem_cons.mp hm with h | h
      · simp only [Prod.mk.injEq] at h
        simp [getKey, h.1, h.2]
      · have hne : k0 ≠ k := fun he => hnd2.1 (k, v) h (by simp [he])
        simp [getKey, show (k0 == k) = false by simp [hne], ih hnd2.2 h]

theorem goodV_dict_unpack {d : Dict} (h : goodV (Value.dict d) = true) :
    nodupKeys d = true ∧ goodVDict d = true := by
  rw [goodV] at h; simpa [Bool.and_eq_true] using h

theorem goodV_list_unpack {xs : List Value} (h : goodV (Value.list xs) = true) :
    goodShape xs = true ∧ goodVList xs = true := by
  rw [goodV] at h; simpa [Bool.and_eq_true] using h

theorem goodVDict_mem : ∀ {d : Dict} {k : String} {v : Value},
    goodVDict d = true → (k, v) ∈ d → goodV v = true := by
  intro d
  induction d with
  | nil => intro k v _ hm; simp at hm
  | cons p rest ih =>
      intro k v hg hm
      obtain ⟨k0, v0⟩ := p
      rw [goodVDict] at hg
      rw [Bool.and_eq_true] at hg
      rcases List.mem_cons.mp hm with h | h
      · simp only [Prod.mk.injEq] at h
        exact h.2 ▸ hg.1
      · exact ih hg.2 h

theorem goodVList_mem : ∀ {xs : List Value} {v : Value},
    goodVList xs = true → v ∈ xs → goodV v = true := by
  intro xs
  induction xs with
  | nil => intro v _ hm; simp at hm
  | cons x rest ih =>
      intro v hg hm
      rw [goodVList] at hg
      rw [Bool.and_eq_true] at hg
      rcases List.mem_cons.mp hm with h | h
      · exact h ▸ hg.1
      · exact ih hg.2 h

theorem dict_self_premise {d : Dict} (h : goodV (Value.dict d) = true) :
    ∀ p ∈ d, getKey d p.1 = some p.2 ∧ goodV p.2 = true := by
  intro p hp
  obtain ⟨k, v⟩ := p
  exact ⟨getKey_of_mem_nodup (goodV_dict_unpack h).1 hp,
    goodVDict_mem (goodV_dict_unpack h).2 hp⟩

theorem hasAssoc_of_findAssoc : ∀ {m : List (Value × Value)} {k v : Value},
    findAssoc m k = some v → hasAssoc m k = true := by
  intro m
  induction m with
  | nil => intro k v h; simp [findAssoc] at h
  | cons p rest ih =>
      intro k v h
      obtain ⟨k0, v0⟩ := p
      by_cases hk : (k0 == k) = true
      · rw [hasAssoc, hk]; rfl
      · rw [findAssoc, if_neg (by simp [hk])] at h
        rw [hasAssoc, ih h, Bool.or_true]

theorem setAssoc_append : ∀ {m : List (Value × Value)} {k : Value} (v : Value),
    hasAssoc m k = false → setAssoc m k v = m ++ [(k, v)] := by
  intro m
  induction m with
  | nil => intro k v _; rfl
  | cons p rest ih =>
      intro k v h
      obtain ⟨k0, v0⟩ := p
      rw [hasAssoc] at h
      rw [Bool.or_eq_false_iff] at h
      rw [setAssoc, if_neg (by simp [h.1]), ih v h.2]
      simp

theorem mergeInto_of_self : ∀ (m : List (Value × Value)) {idv : Value} {d : Dict},
    findAssoc m idv = some (Value.dict d) → deepMergeDicts d d = d →
    mergeInto m idv d = m := by
  intro m
  induction m with
  | nil => intro idv d h _; simp [findAssoc] at h
  | cons p rest ih =>
      intro idv d h hidem
      obtain ⟨k0, v0⟩ := p
      by_cases hk : (k0 == idv) = true
      · rw [findAssoc, if_pos hk] at h
        have hv0 : v0 = Value.dict d := by simpa using h
        subst hv0
        rw [mergeInto.eq_def]
        simp only [hk, if_true]
        rw [hidem]
      · rw [findAssoc, if_neg (by simp [hk])] at h
        rw [mergeInto.eq_def]
        simp only [hk, if_false, Bool.false_eq_true]
        rw [ih h hidem]

theorem hasAssoc_append (m1 m2 : List (Value × Value)) (k : Value) :
    hasAssoc (m1 ++ m2) k = (hasAssoc m1 k || hasAssoc m2 k) := by
  induction m1 with
  | nil => rw [List.nil_append, hasAssoc, Bool.false_or]
  | cons p rest ih =>
      obtain ⟨k0, v0⟩ := p
      rw [List.cons_append, hasAssoc, ih, hasAssoc, Bool.or_assoc]

theorem buildByIdFrom_eq : ∀ (l : List Value) (acc : List (Value × Value)),
    (∀ it ∈ l, truthyIdOf it = true) → distinctIds l = true →
    (∀ it ∈ l, hasAssoc acc (idOf it) = false) →
    buildByIdFrom acc l = acc ++ l.map (fun it => (idOf it, it)) := by
  intro l
  induction l with
  | nil => intro acc _ _ _; simp [buildByIdFrom]
  | cons item rest ih =>
      intro acc htruthy hdist hfresh
      have htr : truthyIdOf item = true := htruthy item (by simp)
      rcases hgid : getIdV item with _ | idv
      · rw [truthyIdOf, idOf, hgid] at htr; simp [pyTruthy] at htr
      · have hidv : idOf item = idv := by simp [idOf, hgid]
        have hpy : pyTruthy idv = true := by rw [truthyIdOf, hidv] at htr; exact htr
        rw [distinctIds] at hdist
        rw [Bool.and_eq_true] at hdist
        have hne0 : ∀ x ∈ rest, ¬ idOf x = idOf item := by simpa using hdist.1
        have hfresh2 : ∀ it ∈ rest, hasAssoc (acc ++ [(idv, item)]) (idOf it) = false := by
          intro it hit
          have h1 : hasAssoc acc (idOf it) = false := hfresh it (by simp [hit])
          have h2 : (idv == idOf it) = false := by
            rw [beq_eq_false_iff_ne]
            rw [← hidv]
            exact fun he => hne0 it hit he.symm
          rw [hasAssoc_append, h1, hasAssoc, h2, hasAssoc, Bool.or_false, Bool.false_or]
        rw [buildByIdFrom, hgid]
        simp only [hpy, if_true]
        rw [setAssoc_append item (hidv ▸ hfresh item (by simp))]
        rw [ih (acc ++ [(idv, item)]) (fun it hit => htruthy it (by simp [hit]))
          hdist.2 hfresh2]
        simp [hidv]

theorem findAssoc_map_self : ∀ (l : List Value) (x : Value), x ∈ l →
    distinctIds l = true →
    findAssoc (l.map (fun it => (idOf it, it))) (idOf x) = some x := by
  intro l
  induction l with
  | nil => intro x hm _; simp at hm
  | cons y rest ih =>
      intro x hm hdist
      rw [distinctIds] at hdist
      rw [Bool.and_eq_true] at hdist
      have hne0 : ∀ z ∈ rest, ¬ idOf z = idOf y := by simpa using hdist.1
      rcases List.mem_cons.mp hm with h | h
      · subst h
        rw [List.map_cons, findAssoc, if_pos (by simp)]
      · have hne : (idOf y == idOf x) = false := by
          rw [beq_eq_false_iff_ne]
          intro he
          exact absurd he.symm (hne0 x h)
        rw [List.map_cons, findAssoc, if_neg (by simp [hne])]
        exact ih x h hdist.2

theorem noIdItems_all_truthy {l : List Value}
    (h : ∀ it ∈ l, truthyIdOf it = true) : noIdItems l = [] := by
  rw [noIdItems, List.filter_eq_nil_iff]
  intro it hit
  have htr := h it hit
  rcases hgid : getIdV it with _ | idv
  · rw [truthyIdOf, idOf, hgid] at htr; simp [pyTruthy] at htr
  · rw [truthyIdOf, idOf, hgid] at htr
    rw [Option.getD_some] at htr
    simp [hgid, htr]

theorem procById_fixed : ∀ (l2 : List Value) (byId : List (Value × Value)),
    (∀ it ∈ l2, truthyIdOf it = true ∧
      findAssoc byId (idOf it) = some it ∧
      (∀ d : Dict, it = Value.dict d → deepMergeDicts d d = d)) →
    procById byId l2 = (byId, []) := by
  intro l2
  induction l2 with
  | nil => intro byId _; rw [procById]
  | cons item rest ih =>
      intro byId h
      obtain ⟨htr, hfind, hidem⟩ := h item (by simp)
      rcases hgid : getIdV item with _ | idv
      · rw [truthyIdOf, idOf, hgid] at htr; simp [pyTruthy] at htr
      · have hidv : idOf item = idv := by simp [idOf, hgid]
        have hpy : pyTruthy idv = true := by rw [truthyIdOf, hidv] at htr; exact htr
        have hfind2 : findAssoc byId idv = some item := hidv ▸ hfind
        have hstep : stepById byId idv item = byId := by
          cases item with
          | dict d =>
              rw [stepById, if_pos (hasAssoc_of_findAssoc hfind2)]
              show mergeInto byId idv d = byId
              exact mergeInto_of_self byId hfind2 (hidem d rfl)
          | none => rw [stepById, if_pos (hasAssoc_of_findAssoc hfind2)]
          | str s => rw [stepById, if_pos (hasAssoc_of_findAssoc hfind2)]
          | int n => rw [stepById, if_pos (hasAssoc_of_findAssoc hfind2)]
          | list xs => rw [stepById, if_pos (hasAssoc_of_findAssoc hfind2)]
        rw [procById, hgid]
        simp only [hpy, if_true, hstep]
        exact ih byId (fun it hit => h it (by simp [hit]))

theorem hasIds_self (l : List Value) : hasIds l l = hasIds l [] := by
  simp [hasIds]

mutual

theorem deepMergeDicts_self_of_lookup : ∀ (src t : Dict),
    (∀ p ∈ src, getKey t p.1 = some p.2 ∧ goodV p.2 = true) →
    deepMergeDicts t src = t
  | [], t, _ => deepMergeDicts_nil t
  | (k, sv) :: rest, t, h => by
      obtain ⟨hget, hgood⟩ := h (k, sv) (by simp)
      have htail : ∀ p ∈ rest, getKey t p.1 = some p.2 ∧ goodV p.2 = true :=
        fun p hp => h p (by simp [hp])
      rw [deepMergeDicts_cons]
      have hone : mergeOne t k sv = t := by
        rw [mergeOne]
        by_cases hemp : isEmptyVal sv = true
        · simp [hemp]
        · rw [if_neg (by simp [hemp]), hget]
          cases sv with
          | none => simp [isEmptyVal] at hemp
          | str s => simp [hemp]
          | int n => simp [hemp]
          | list sl =>
              have hself : mergeLists sl sl = sl :=
                mergeLists_self sl (goodV_list_unpack hgood).1 (goodV_list_unpack hgood).2
              show setKey t k (Value.list (mergeLists sl sl)) = t
              rw [hself]
              exact setKey_getKey_self hget
          | dict sd =>
              have hself : deepMergeDicts sd sd = sd :=
                deepMergeDicts_self_of_lookup sd sd (dict_self_premise hgood)
              show setKey t k (Value.dict (deepMergeDicts sd sd)) = t
              rw [hself]
              exact setKey_getKey_self hget
      rw [hone]
      exact deepMergeDicts_self_of_lookup rest t htail
  termination_by src t _ => sizeOf src

theorem mergeLists_self : ∀ (l : List Value),
    goodShape l = true → goodVList l = true → mergeLists l l = l
  | l, hs, hg => by
      have hidem : ∀ it ∈ l, ∀ d : Dict, it = Value.dict d → deepMergeDicts d d = d := by
        intro it hit d hd
        have hgv : goodV (Value.dict d) = true := hd ▸ goodVList_mem hg hit
        have hsz : sizeOf d < sizeOf l := by
          have h1 := List.sizeOf_lt_of_mem hit
          rw [hd] at h1
          simp only [Value.dict.sizeOf_spec] at h1
          omega
        exact deepMergeDicts_self_of_lookup d d (dict_self_premise hgv)
      rw [mergeLists]
      by_cases hemp : l.isEmpty
      · simp [hemp]
      · rw [if_neg (by simp [hemp]), if_neg (by simp [hemp])]
        by_cases hhash : (l ++ l).all isHashable
        · rw [if_pos hhash]
          exact setDedup_of_subset l l (fun x hx => hx)
        · rw [if_neg (by simp_all)]
          by_cases hdict : (l ++ l).all isDict
          · rw [if_pos hdict]
            have hdict1 : l.all isDict = true := by
              rw [List.all_append] at hdict
              exact (Bool.and_eq_true .. ▸ hdict).1
            by_cases hids : hasIds l l
            · rw [if_pos hids]
              have hall : l.all truthyIdOf = true ∧ distinctIds l = true := by
                have hhash1 : l.all isHashable = false := by
                  rcases List.exists_mem_of_ne_nil l (by simpa using hemp) with ⟨x, hx⟩
                  have hxd : isDict x = true := by
                    rw [List.all_eq_true] at hdict1
                    exact hdict1 x hx
                  cases x with
                  | dict d => exact List.all_eq_false.mpr ⟨_, hx, by simp [isHashable]⟩
                  | none => simp [isDict] at hxd
                  | str s => simp [isDict] at hxd
                  | int n => simp [isDict] at hxd
                  | list xs => simp [isDict] at hxd
                rw [goodShape, if_neg (by simp [hhash1]), if_pos hdict1] at hs
                rw [hasIds_self] at hids
                simpa [hids, Bool.and_eq_true] using hs
              have htruthy : ∀ it ∈ l, truthyIdOf it = true := by
                rw [List.all_eq_true] at hall
                exact fun it hit => hall.1 it hit
              have hbuild : buildById l = l.map (fun it => (idOf it, it)) := by
                rw [buildById]
                simpa using buildByIdFrom_eq l [] htruthy hall.2
                  (fun it _ => by simp [hasAssoc])
              have hproc :
                  procById (l.map (fun it => (idOf it, it))) l =
                    (l.map (fun it => (idOf it, it)), []) :=
                procById_fixed l _ (fun it hit =>
                  ⟨htruthy it hit, findAssoc_map_self l it hit hall.2,
                    fun d hd => hidem it hit d hd⟩)
              rw [mergeDictLists, hbuild, hproc, assembleById,
                noIdItems_all_truthy htruthy]
              simp only [List.append_nil]
              have hcomp : (Prod.snd ∘ fun it => (idOf it, it)) = @id Value := rfl
              rw [List.map_map, hcomp, List.map_id]
            · rw [if_neg hids]
              exact appendUnique_of_subset l l (fun x hx => hx)
          · rw [if_neg hdict]
            exact appendUnique_of_subset l l (fun x hx => hx)
  termination_by l _ _ => sizeOf l

end

/-- A well-formed property map on which self-merge can be exercised: scalar
fields, a list of hashable scalars, and a list of dicts all carrying
distinct truthy ids. -/
def mergeIdemWitnessDict : Dict :=
  [("name", Value.str "x"),
   ("tags", Value.list [Value.str "p", Value.str "q"]),
   ("items", Value.list
      [Value.dict [("id", Value.str "i1"), ("qty", Value.int 2)],
       Value.dict [("id", Value.str "i2")]])]

/-- **C7 counterexample**: `deep_merge_dicts` applied to a property map and
an equal copy of itself is *not* the identity: with
`{"tags": [{"id": "a"}, {"x": 1}]}` the id-less dict `{"x": 1}` is emitted
twice (once from the id-branch reassembly of `list1`, once from
`items_without_id` of `list2`), so `merge(a, a) ≠ a`. -/
theorem merge_idempotence_counterexample :
    deepMergeDicts mergeSelfCounterexampleDict mergeSelfCounterexampleDict ≠
      mergeSelfCounterexampleDict := by
  have h : deepMergeDicts mergeSelfCounterexampleDict mergeSelfCounterexampleDict =
      [("tags", Value.list
        [Value.dict [("id", Value.str "a")], Value.dict [("x", Value.int 1)],
         Value.dict [("x", Value.int 1)]])] := by
    simp [mergeSelfCounterexampleDict, deepMergeDicts, mergeOne, mergeLists, mergeDictLists,
      procById, stepById, mergeInto, getKey, setKey, isEmptyVal, isHashable, isDict, hasIds,
      buildById, buildByIdFrom, noIdItems, appendUnique, getIdV, pyTruthy, hasAssoc, setAssoc,
      setDedup, assembleById, pushWithout, idOf]
  rw [h]
  intro he
  simp [mergeSelfCounterexampleDict] at he

/-- **C7 (amended)**: merging with the empty batch is the identity for every
property map, and `merge(a, a) = a` holds for every well-formed property map
`a` — unique keys throughout, and every list value either made of hashable
scalars, or of dicts which either carry no `id` key at all or all carry
distinct truthy ids, or mixed.  (The unrestricted claim is refuted by
`merge_idempotence_counterexample`: a dict list mixing id-bearing and
id-less items duplicates the id-less items.) -/
theorem merge_idempotent_amended :
    (∀ a : Dict, deepMergeDicts a [] = a) ∧
    (∀ a : Dict, goodV (Value.dict a) = true → deepMergeDicts a a = a) :=
  ⟨deepMergeDicts_nil,
   fun a ha => deepMergeDicts_self_of_lookup a a (dict_self_premise ha)⟩

/-- Witness for `merge_idempotent_amended`: a concrete well-formed property
map with scalars, a scalar list and an id-keyed dict list is a fixed point
of self-merge. -/
theorem merge_idempotent_amended_witness :
    goodV (Value.dict mergeIdemWitnessDict) = true ∧
    deepMergeDicts mergeIdemWitnessDict mergeIdemWitnessDict = mergeIdemWitnessDict :=
  ⟨by simp [mergeIdemWitnessDict, goodV, goodVList, goodVDict, goodShape, nodupKeys,
      distinctIds, truthyIdOf, idOf, getIdV, getKey, pyTruthy, isHashable, isDict, hasIds],
   merge_idempotent_amended.2 mergeIdemWitnessDict
     (by simp [mergeIdemWitnessDict, goodV, goodVList, goodVDict, goodShape, nodupKeys,
        distinctIds, truthyIdOf, idOf, getIdV, getKey, pyTruthy, isHashable, isDict, hasIds])⟩

/-- **C10**: `merge_pydantic_models` returns `None` on an empty list,
returns the single instance itself on a one-element list, and only for two
or more models builds a new instance of the template class from the deep
merge of all model dumps. -/
theorem merge_pydantic_models_arity :
    (∀ t, mergePydanticModels [] t = Option.none) ∧
    (∀ (m : PModel) (t : String), mergePydanticModels [m] t = some m) ∧
    (∀ (m1 m2 : PModel) (rest : List PModel) (t : String),
      mergePydanticModels (m1 :: m2 :: rest) t =
        some ⟨t, (m1 :: m2 :: rest).foldl (fun acc m => deepMergeDicts acc m.data) []⟩) :=
  ⟨fun _ => rfl, fun _ _ => rfl, fun _ _ _ _ => rfl⟩

/-! ### Executable SHA-256 (FIPS 180-4), over byte lists

`scripts/graph_converter.py` derives node ids from
`hashlib.sha256(model_string.encode()).hexdigest()[:12]`; the spec claims
BLAKE2b instead.  Both hash functions are implemented here executably so the
two formulas can be compared on concrete inputs.  All arithmetic is `Nat`
with explicit `% 2^32` / `% 2^64` where overflow matters. -/

/-- Truncated addition of 32-bit words. -/
def add32 (a b : Nat) : Nat := (a + b) % 4294967296

/-- Right rotation of a 32-bit word. -/
def rotr32 (n x : Nat) : Nat := Nat.lor (x >>> n) ((x <<< (32 - n)) % 4294967296)

/-- Bitwise complement of a 32-bit word. -/
def not32 (x : Nat) : Nat := Nat.xor x 4294967295

/-- SHA-256 round constants (FIPS 180-4 §4.2.2, written in decimal). -/
def sha256K : List Nat :=
  [1116352408, 1899447441, 3049323471, 3921009573,
   961987163, 1508970993, 2453635748, 2870763221,
   3624381080, 310598401, 607225278, 1426881987,
   1925078388, 2162078206, 2614888103, 3248222580,
   3835390401, 4022224774, 264347078, 604807628,
   770255983, 1249150122, 1555081692, 1996064986,
   2554220882, 2821834349, 2952996808, 3210313671,
   3336571891, 3584528711, 113926993, 338241895,
   666307205, 773529912, 1294757372, 1396182291,
   1695183700, 1986661051, 2177026350, 2456956037,
   2730485921, 2820302411, 3259730800, 3345764771,
   3516065817, 3600352804, 4094571909, 275423344,
   430227734, 506948616, 659060556, 883997877,
   958139571, 1322822218, 1537002063, 1747873779,
   1955562222, 2024104815, 2227730452, 2361852424,
   2428436474, 2756734187, 3204031479, 3329325298]

/-- SHA-256 initial hash value (FIPS 180-4 §5.3.3, written in decimal). -/
def sha256H0 : List Nat :=
  [1779033703, 3144134277, 1013904242, 2773480762,
   1359893119, 2600822924, 528734635, 1541459225]

/-- Message-schedule σ0. -/
def ssig0 (x : Nat) : Nat := Nat.xor (Nat.xor (rotr32 7 x) (rotr32 18 x)) (x >>> 3)

/-- Message-schedule σ1. -/
def ssig1 (x : Nat) : Nat := Nat.xor (Nat.xor (rotr32 17 x) (rotr32 19 x)) (x >>> 10)

/-- Compression Σ0. -/
def bsig0 (x : Nat) : Nat := Nat.xor (Nat.xor (rotr32 2 x) (rotr32 13 x)) (rotr32 22 x)

/-- Compression Σ1. -/
def bsig1 (x : Nat) : Nat := Nat.xor (Nat.xor (rotr32 6 x) (rotr32 11 x)) (rotr32 25 x)

/-- Choice function. -/
def chFn (e f g : Nat) : Nat := Nat.xor (Nat.land e f) (Nat.land (not32 e) g)

/-- Majority function. -/
def majFn (a b c : Nat) : Nat :=
  Nat.xor (Nat.xor (Nat.land a b) (Nat.land a c)) (Nat.land b c)

/-- Big-endian bytes of a number (fixed width `n`). -/
def beBytes (n x : Nat) : List Nat :=
  (List.range n).map (fun i => (x >>> (8 * (n - 1 - i))) % 256)

/-- SHA-256 padding: `0x80`, zeros to 56 mod 64, 8-byte big-endian bit
length. -/
def sha256Pad (msg : List Nat) : List Nat :=
  msg ++ [0x80] ++ List.replicate ((120 - (msg.length + 1) % 64) % 64) 0 ++
    beBytes 8 (msg.length * 8)

/-- Big-endian 32-bit words of a byte list. -/
def toWordsBE : List Nat → List Nat
  | b0 :: b1 :: b2 :: b3 :: rest =>
      (((b0 * 256 + b1) * 256 + b2) * 256 + b3) :: toWordsBE rest
  | _ => []

/-- Extend a 16-word block to the 64-word message schedule (`fuel = 48`). -/
def sha256Schedule (fuel : Nat) (w : List Nat) : List Nat :=
  match fuel with
  | 0 => w
  | Nat.succ f =>
      let n := w.length
      sha256Schedule f (w ++
        [add32 (add32 (ssig1 (w.getD (n - 2) 0)) (w.getD (n - 7) 0))
               (add32 (ssig0 (w.getD (n - 15) 0)) (w.getD (n - 16) 0))])

/-- One SHA-256 round on the working state `[a,b,c,d,e,f,g,h]`. -/
def sha256Round (state : List Nat) (kw : Nat × Nat) : List Nat :=
  match state with
  | [a, b, c, d, e, f, g, h] =>
      let t1 := add32 (add32 (add32 h (bsig1 e)) (add32 (chFn e f g) kw.1)) kw.2
      let t2 := add32 (bsig0 a) (majFn a b c)
      [add32 t1 t2, a, b, c, add32 d t1, e, f, g]
  | s => s

/-- Compress one 64-byte block into the hash state. -/
def sha256Compress (h : List Nat) (block : List Nat) : List Nat :=
  let w := sha256Schedule 48 (toWordsBE block)
  let final := (sha256K.zip w).foldl sha256Round h
  (h.zip final).map (fun p => add32 p.1 p.2)

/-- Fold over the 64-byte blocks of a padded message (fuel-driven so the
definition stays structurally recursive). -/
def sha256Fold (fuel : Nat) (h : List Nat) (bytes : List Nat) : List Nat :=
  match fuel with
  | 0 => h
  | Nat.succ f => sha256Fold f (sha256Compress h (bytes.take 64)) (bytes.drop 64)

/-- SHA-256 digest (eight 32-bit words) of a byte list. -/
def sha256Digest (msg : List Nat) : List Nat :=
  let padded := sha256Pad msg
  sha256Fold (padded.length / 64) sha256H0 padded

/-- Lowercase hex digit. -/
def hexDigitChar (n : Nat) : Char :=
  if n < 10 then Char.ofNat (48 + n) else Char.ofNat (87 + n)

/-- Eight lowercase hex characters of a 32-bit word. -/
def hexWord32 (x : Nat) : List Char :=
  (List.range 8).map (fun i => hexDigitChar ((x >>> (4 * (7 - i))) % 16))

/-- `hashlib.sha256(msg).hexdigest()`. -/
def sha256Hex (msg : List Nat) : String :=
  String.mk (((sha256Digest msg).map hexWord32).flatten)

/-- Bytes of an ASCII string (`s.encode()`; all identity strings handled by
the pipeline here are ASCII). -/
def strBytes (s : String) : List Nat := s.data.map Char.toNat

/-- Python slicing `s[:n]` (character-level prefix). -/
def strTake (s : String) (n : Nat) : String := String.mk (s.data.take n)

/-- Python `str.lower()` (character-level; ASCII case folding). -/
def strToLower (s : String) : String := String.mk (s.data.map Char.toLower)

/-- Validation of the SHA-256 implementation against the FIPS 180-4 "abc"
test vector. -/
theorem sha256_abc_vector :
    sha256Hex (strBytes "abc") =
      "ba7816bf8f01cfea414140de5dae2223b00361a396177a9cb410ff61f20015ad" := by
  decide

/-! ### Executable BLAKE2b (RFC 7693), unkeyed, 64-byte digest

This is `hashlib.blake2b` with default parameters, the hash the spec claims
for NodeIDs. -/

/-- Truncated addition of 64-bit words. -/
def add64 (a b : Nat) : Nat := (a + b) % 18446744073709551616

/-- Right rotation of a 64-bit word. -/
def rotr64 (n x : Nat) : Nat :=
  Nat.lor (x >>> n) ((x <<< (64 - n)) % 18446744073709551616)

/-- BLAKE2b initialization vector (the SHA-512 IV). -/
def blake2bIV : List Nat :=
  [0x6a09e667f3bcc908, 0xbb67ae8584caa73b,
   0x3c6ef372fe94f82b, 0xa54ff53a5f1d36f1,
   0x510e527fade682d1, 0x9b05688c2b3e6c1f,
   0x1f83d9abfb41bd6b, 0x5be0cd19137e2179]

/-- Message permutation table. -/
def blake2bSigma : List (List Nat) :=
  [[0, 1, 2, 3, 4, 5, 6, 7, 8, 9, 10, 11, 12, 13, 14, 15],
   [14, 10, 4, 8, 9, 15, 13, 6, 1, 12, 0, 2, 11, 7, 5, 3],
   [11, 8, 12, 0, 5, 2, 15, 13, 10, 14, 3, 6, 7, 1, 9, 4],
   [7, 9, 3, 1, 13, 12, 11, 14, 2, 6, 5, 10, 4, 0, 15, 8],
   [9, 0, 5, 7, 2, 4, 10, 15, 14, 1, 11, 12, 6, 8, 3, 13],
   [2, 12, 6, 10, 0, 11, 8, 3, 4, 13, 7, 5, 15, 14, 1, 9],
   [12, 5, 1, 15, 14, 13, 4, 10, 0, 7, 6, 3, 9, 2, 8, 11],
   [13, 11, 7, 14, 12, 1, 3, 9, 5, 0, 15, 4, 8, 6, 2, 10],
   [6, 15, 14, 9, 11, 3, 0, 8, 12, 2, 13, 7, 1, 4, 10, 5],
   [10, 2, 8, 4, 7, 6, 1, 5, 15, 11, 9, 14, 3, 12, 13, 0]]

/-- Initial hash state: IV with the parameter word for an unkeyed 64-byte
digest (`digest_size = 0x40`, `fanout = depth = 1`) mixed into `h0`. -/
def blake2bH0 : List Nat :=
  match blake2bIV with
  | h0 :: rest => Nat.xor h0 0x01010040 :: rest
  | [] => []

/-- Little-endian 64-bit words of a byte list. -/
def toWordsLE : List Nat → List Nat
  | b0 :: b1 :: b2 :: b3 :: b4 :: b5 :: b6 :: b7 :: rest =>
      (b0 + 256 * (b1 + 256 * (b2 + 256 * (b3 + 256 *
        (b4 + 256 * (b5 + 256 * (b6 + 256 * b7))))))) :: toWordsLE rest
  | _ => []

/-- The BLAKE2b mixing function G on the 16-word working vector. -/
def blakeG (v : List Nat) (a b c d x y : Nat) : List Nat :=
  let va := add64 (add64 (v.getD a 0) (v.getD b 0)) x
  let vd := rotr64 32 (Nat.xor (v.getD d 0) va)
  let vc := add64 (v.getD c 0) vd
  let vb := rotr64 24 (Nat.xor (v.getD b 0) vc)
  let va2 := add64 (add64 va vb) y
  let vd2 := rotr64 16 (Nat.xor vd va2)
  let vc2 := add64 vc vd2
  let vb2 := rotr64 63 (Nat.xor vb vc2)
  ((((v.set a va2).set b vb2).set c vc2).set d vd2)

/-- One BLAKE2b round: four column mixes then four diagonal mixes, message
words selected by the round's permutation row `s`. -/
def blakeRound (m : List Nat) (v : List Nat) (s : List Nat) : List Nat :=
  let mi := fun i => m.getD (s.getD i 0) 0
  let v1 := blakeG v 0 4 8 12 (mi 0) (mi 1)
  let v2 := blakeG v1 1 5 9 13 (mi 2) (mi 3)
  let v3 := blakeG v2 2 6 10 14 (mi 4) (mi 5)
  let v4 := blakeG v3 3 7 11 15 (mi 6) (mi 7)
  let v5 := blakeG v4 0 5 10 15 (mi 8) (mi 9)
  let v6 := blakeG v5 1 6 11 12 (mi 10) (mi 11)
  let v7 := blakeG v6 2 7 8 13 (mi 12) (mi 13)
  blakeG v7 3 4 9 14 (mi 14) (mi 15)

/-- Compress one 128-byte block.  `t` is the byte counter (total bytes fed
so far, below 2^64 here), `final` marks the last block. -/
def blake2bCompress (h : List Nat) (block : List Nat) (t : Nat) (final : Bool) :
    List Nat :=
  let m := toWordsLE block
  let v0 := h ++ blake2bIV
  let v1 := v0.set 12 (Nat.xor (v0.getD 12 0) (t % 18446744073709551616))
  let v2 := if final then v1.set 14 (Nat.xor (v1.getD 14 0) 18446744073709551615) else v1
  let rows := (List.range 12).map (fun r => blake2bSigma.getD (r % 10) [])
  let vf := rows.foldl (blakeRound m) v2
  (List.range 8).map (fun i => Nat.xor (h.getD i 0) (Nat.xor (vf.getD i 0) (vf.getD (i + 8) 0)))

/-- Fold over the 128-byte blocks of the message; the final (possibly
partial or empty) block is zero-padded and compressed with the final flag. -/
def blake2bFold (fuel : Nat) (h : List Nat) (done : Nat) (bytes : List Nat) :
    List Nat :=
  match fuel with
  | 0 => h
  | Nat.succ f =>
      if bytes.length ≤ 128 then
        blake2bCompress h (bytes ++ List.replicate (128 - bytes.length) 0)
          (done + bytes.length) true
      else
        blake2bFold f (blake2bCompress h (bytes.take 128) (done + 128) false)
          (done + 128) (bytes.drop 128)

/-- BLAKE2b-512 digest (eight 64-bit words) of a byte list. -/
def blake2bDigest (msg : List Nat) : List Nat :=
  blake2bFold (msg.length / 128 + 1) blake2bH0 0 msg

/-- Little-endian bytes of a 64-bit word. -/
def leBytes8 (x : Nat) : List Nat :=
  (List.range 8).map (fun i => (x >>> (8 * i)) % 256)

/-- Two lowercase hex characters of a byte. -/
def hexByte (b : Nat) : List Char := [hexDigitChar (b / 16), hexDigitChar (b % 16)]

/-- `hashlib.blake2b(msg).hexdigest()` (128 hex characters). -/
def blake2bHex (msg : List Nat) : String :=
  String.mk ((((blake2bDigest msg).map leBytes8).flatten.map hexByte).flatten)

set_option maxRecDepth 40000 in
/-- Validation of the BLAKE2b implementation against the RFC 7693 "abc"
test vector. -/
theorem blake2b_abc_vector :
    blake2bHex (strBytes "abc") =
      "ba80a53f981c4d0d6a2797b69f12f6e94c212f14685ac4b74b12bb6fdbffa2d17d87c5392aab792dc252d5de4533cc9518d38aa8dbf1925ab92386edd4009923" := by
  decide

/-! ### `GraphConverter._get_node_id` from `scripts/graph_converter.py` -/

/-- A pydantic model instance as seen by `GraphConverter._get_node_id`: its
class name and its (flat, string-valued) fields.  The script's models are
flat records of strings for the purposes of id generation; `str(getattr(m,
f, ""))` on a string field is the string itself. -/
structure GCModel where
  className : String
  fields : List (String × String)
deriving DecidableEq

/-- The hard-coded identity-field table of `_get_node_id`. -/
def gcIdFields (label : String) : List String :=
  if label == "Person" then ["name"]
  else if label == "Organization" then ["name"]
  else if label == "Address" then ["street", "city", "postal_code"]
  else if label == "Invoice" then ["bill_no"]
  else []

/-- A single-quote character (avoids a literal apostrophe in the source). -/
def squote : String := String.mk [Char.ofNat 39]

/-- `str(model_instance.model_dump())` for a flat string-valued model:
the Python dict repr (values assumed free of quotes and backslashes). -/
def pyDictRepr (fields : List (String × String)) : String :=
  "\x7b" ++ String.intercalate ", "
    (fields.map (fun p => squote ++ p.1 ++ squote ++ ": " ++ squote ++ p.2 ++ squote)) ++
  "\x7d"

/-- The string `_get_node_id` hashes: the `"|"`-joined lowercased identity
field values when the class has identity fields, else the repr of the whole
model dump. -/
def gcModelString (m : GCModel) : String :=
  match gcIdFields m.className with
  | [] => pyDictRepr m.fields
  | fs => String.intercalate "|" (fs.map (fun f => strToLower ((m.fields.lookup f).getD "")))

/-- Shallow embedding of `GraphConverter._get_node_id`: the class name, an
underscore, and the first 12 hex digits of the **SHA-256** digest of the
model string. -/
def getNodeId (m : GCModel) : String :=
  m.className ++ "_" ++ strTake (sha256Hex (strBytes (gcModelString m))) 12

theorem sha256Round_length (s : List Nat) (kw : Nat × Nat) :
    (sha256Round s kw).length = s.length := by
  rw [sha256Round.eq_def]
  split
  · rfl
  · rfl

theorem foldl_sha256Round_length (l : List (Nat × Nat)) :
    ∀ s : List Nat, (l.foldl sha256Round s).length = s.length := by
  induction l with
  | nil => intro s; rfl
  | cons kw rest ih => intro s; rw [List.foldl_cons, ih, sha256Round_length]

theorem sha256Compress_length (h block : List Nat) (hh : h.length = 8) :
    (sha256Compress h block).length = 8 := by
  rw [sha256Compress]
  simp [foldl_sha256Round_length, hh]

theorem sha256Fold_length (fuel : Nat) :
    ∀ (h bytes : List Nat), h.length = 8 → (sha256Fold fuel h bytes).length = 8 := by
  induction fuel with
  | zero => intro h bytes hh; exact hh
  | succ f ih =>
      intro h bytes hh
      rw [sha256Fold]
      exact ih _ _ (sha256Compress_length h _ hh)

theorem sha256Digest_length (msg : List Nat) : (sha256Digest msg).length = 8 := by
  rw [sha256Digest]
  exact sha256Fold_length _ _ _ rfl

theorem hexWord32_length (x : Nat) : (hexWord32 x).length = 8 := by
  simp [hexWord32]

theorem sha256Hex_length (msg : List Nat) : (sha256Hex msg).length = 64 := by
  have h8 := sha256Digest_length msg
  rw [sha256Hex]
  show (((sha256Digest msg).map hexWord32).flatten).length = 64
  rw [List.length_flatten]
  have h1 : ((sha256Digest msg).map hexWord32).map List.length =
      (sha256Digest msg).map (fun _ => 8) := by
    rw [List.map_map]
    exact List.map_congr_left (fun x _ => hexWord32_length x)
  have h2 : (fun _ : Nat => 8) = Function.const Nat 8 := rfl
  rw [h1, h2, List.map_const, List.sum_replicate, h8]
  decide

set_option maxRecDepth 100000 in
/-- **C4 counterexample**: the NodeID generated by
`GraphConverter._get_node_id` for the invoice with `bill_no = "ABC"` is not
the class name followed by the first 12 hex digits of the BLAKE2b hash of
the fingerprint bytes — the code uses SHA-256, so the generated id is
`Invoice_ba7816bf8f01` while the claimed formula gives
`Invoice_ba80a53f981c`. -/
theorem node_id_blake2b_counterexample :
    getNodeId ⟨"Invoice", [("bill_no", "ABC")]⟩ ≠
      "Invoice" ++ "_" ++
        strTake (blake2bHex (strBytes (gcModelString ⟨"Invoice", [("bill_no", "ABC")]⟩))) 12 := by
  decide

/-- **C4 (amended)**: for every model instance, the generated NodeID equals
the class name, an underscore, and the first 12 hex digits of the **SHA-256**
hash of the model's fingerprint string (the lowercased `"|"`-joined identity
field values, or the model-dump repr when the class declares no identity
fields); the underlying hex digest always has 64 digits, so 12 are always
available. -/
theorem node_id_is_class_name_sha256_prefix (m : GCModel) :
    getNodeId m =
      m.className ++ "_" ++ strTake (sha256Hex (strBytes (gcModelString m))) 12 ∧
    (sha256Hex (strBytes (gcModelString m))).length = 64 :=
  ⟨rfl, sha256Hex_length _⟩

/-! ### Node ID registry (C3) -/

/-- A fingerprint as tracked by the registry: class name and the ordered
identity-field values. -/
abbrev Fingerprint := String × List String

/-- Modelled from the spec: `docling_graph/core/converters/node_id_registry.py`
is not part of the source tree (only its unit tests are).  A model instance
as seen by `NodeIDRegistry.get_node_id`: class name, the identity fields
declared by `model_config["graph_id_fields"]`, and the stringified field
values. -/
structure RegModel where
  className : String
  idFields : List String
  fields : List (String × String)
deriving DecidableEq

/-- Modelled from the spec: the `NodeFingerprint` of an instance — its class
name together with the values of its identity fields (spec §3). -/
def fingerprintOf (m : RegModel) : Fingerprint :=
  (m.className, m.idFields.map (fun f => (m.fields.lookup f).getD ""))

/-- Modelled from the spec: the canonical byte encoding of a fingerprint. -/
def fingerprintBytes (fp : Fingerprint) : List Nat :=
  strBytes (fp.1 ++ "|" ++ String.intercalate "|" fp.2)

/-- Modelled from the spec: `NodeID = class_name + "_" +
hex(blake2b(fingerprint_bytes))[:12]` (spec §3), a pure function of the
fingerprint. -/
def nodeIdOfFingerprint (fp : Fingerprint) : String :=
  fp.1 ++ "_" ++ strTake (blake2bHex (fingerprintBytes fp)) 12

/-- Modelled from the spec: the registry state — the fingerprint→id mapping,
its inverse, and per-class counts (spec §4.3 and the registry unit tests). -/
structure NodeIDRegistry where
  fingerprint_to_id : List (Fingerprint × String)
  id_to_fingerprint : List (String × Fingerprint)
  seen_classes : List (String × Nat)
deriving DecidableEq

/-- A fresh registry. -/
def NodeIDRegistry.empty : NodeIDRegistry := ⟨[], [], []⟩

/-- Increment the per-class counter. -/
def bumpClass (cs : List (String × Nat)) (c : String) : List (String × Nat) :=
  match cs with
  | [] => [(c, 1)]
  | (c0, n) :: rest => if c0 == c then (c0, n + 1) :: rest else (c0, n) :: bumpClass rest c

/-- Modelled from the spec: `get_node_id` — look the instance's fingerprint
up in the mapping; on a hit return the stored id unchanged, otherwise derive
the id from the fingerprint, insert both directions, and bump the class
count (spec §4.3: new fingerprints are inserted on first lookup; ids are
derived from the fingerprint only). -/
def NodeIDRegistry.get_node_id (r : NodeIDRegistry) (m : RegModel) :
    String × NodeIDRegistry :=
  match r.fingerprint_to_id.lookup (fingerprintOf m) with
  | some i => (i, r)
  | Option.none =>
      (nodeIdOfFingerprint (fingerprintOf m),
       ⟨r.fingerprint_to_id ++ [(fingerprintOf m, nodeIdOfFingerprint (fingerprintOf m))],
        r.id_to_fingerprint ++ [(nodeIdOfFingerprint (fingerprintOf m), fingerprintOf m)],
        bumpClass r.seen_classes m.className⟩)

/-- Run a fresh registry over a list of instances (`register_batch`). -/
def runRegistry (ms : List RegModel) : NodeIDRegistry :=
  ms.foldl (fun r m => (r.get_node_id m).2) NodeIDRegistry.empty

/-- Registry invariant: every stored id is the pure function of its
fingerprint. -/
def goodReg (r : NodeIDRegistry) : Prop :=
  ∀ p ∈ r.fingerprint_to_id, p.2 = nodeIdOfFingerprint p.1

theorem lookup_mem {α β : Type} [BEq α] [LawfulBEq α] :
    ∀ {l : List (α × β)} {k : α} {v : β}, l.lookup k = some v → (k, v) ∈ l := by
  intro l
  induction l with
  | nil => intro k v h; simp [List.lookup] at h
  | cons p rest ih =>
      intro k v h
      obtain ⟨k0, v0⟩ := p
      rw [List.lookup] at h
      by_cases hk : (k == k0) = true
      · rw [hk] at h
        have hv : v0 = v := by simpa using h
        have hk2 : k = k0 := by simpa using hk
        simp [hk2, hv]
      · rw [Bool.not_eq_true] at hk
        rw [hk] at h
        simp [ih h]

theorem get_node_id_of_good {r : NodeIDRegistry} (hr : goodReg r) (m : RegModel) :
    (r.get_node_id m).1 = nodeIdOfFingerprint (fingerprintOf m) := by
  rcases hl : r.fingerprint_to_id.lookup (fingerprintOf m) with _ | i
  · simp [NodeIDRegistry.get_node_id, hl]
  · have h2 : i = nodeIdOfFingerprint (fingerprintOf m) := hr _ (lookup_mem hl)
    simp [NodeIDRegistry.get_node_id, hl, h2]

theorem goodReg_step {r : NodeIDRegistry} (hr : goodReg r) (m : RegModel) :
    goodReg (r.get_node_id m).2 := by
  rcases hl : r.fingerprint_to_id.lookup (fingerprintOf m) with _ | i
  · intro p hp
    simp only [NodeIDRegistry.get_node_id, hl] at hp
    rcases List.mem_append.mp hp with h | h
    · exact hr p h
    · simp at h
      simp [h]
  · intro p hp
    simp only [NodeIDRegistry.get_node_id, hl] at hp
    exact hr p hp

theorem goodReg_foldl : ∀ (ms : List RegModel) (r : NodeIDRegistry), goodReg r →
    goodReg (ms.foldl (fun r m => (r.get_node_id m).2) r) := by
  intro ms
  induction ms with
  | nil => intro r hr; exact hr
  | cons m rest ih =>
      intro r hr
      rw [List.foldl_cons]
      exact ih _ (goodReg_step hr m)

theorem goodReg_run (ms : List RegModel) : goodReg (runRegistry ms) :=
  goodReg_foldl ms NodeIDRegistry.empty (fun p hp => by simp [NodeIDRegistry.empty] at hp)

/-- **C3** (spec-modelled): node ids are a pure function of the fingerprint.
Whatever instances two registries have previously processed, `get_node_id`
on the same instance returns byte-for-byte equal ids; and within one
registry, two instances with equal fingerprints — in particular instances
differing only in non-identity fields — receive the same id. -/
theorem node_id_registry_deterministic :
    (∀ (ms1 ms2 : List RegModel) (m : RegModel),
      ((runRegistry ms1).get_node_id m).1 = ((runRegistry ms2).get_node_id m).1) ∧
    (∀ (ms : List RegModel) (m1 m2 : RegModel), fingerprintOf m1 = fingerprintOf m2 →
      ((runRegistry ms).get_node_id m1).1 = ((runRegistry ms).get_node_id m2).1) := by
  constructor
  · intro ms1 ms2 m
    rw [get_node_id_of_good (goodReg_run ms1), get_node_id_of_good (goodReg_run ms2)]
  · intro ms m1 m2 hfp
    rw [get_node_id_of_good (goodReg_run ms), get_node_id_of_good (goodReg_run ms), hfp]

/-- Witness for `node_id_registry_deterministic`: two `PersonModel` instances
named Alice with different ages share a fingerprint, hence an id, in a fresh
registry. -/
theorem node_id_registry_deterministic_witness :
    fingerprintOf ⟨"PersonModel", ["name"], [("name", "Alice"), ("age", "30")]⟩ =
      fingerprintOf ⟨"PersonModel", ["name"], [("name", "Alice"), ("age", "35")]⟩ ∧
    ((runRegistry []).get_node_id
        ⟨"PersonModel", ["name"], [("name", "Alice"), ("age", "30")]⟩).1 =
      ((runRegistry []).get_node_id
        ⟨"PersonModel", ["name"], [("name", "Alice"), ("age", "35")]⟩).1 :=
  ⟨rfl, node_id_registry_deterministic.2 [] _ _ rfl⟩

/-! ### Template projector (C1, C2, C5)

`docling_graph/core/extractors/contracts/delta/schema_mapper.py`
(`project_graph_to_template_root`) and the resolver cascade of
`ir_normalizer.py` are not part of the source tree (only their unit tests
are); the parent-resolution behavior is modelled from spec §4.5 step 4 and
§4.7.  The model records the resolution observables — which child attaches
under which existing or synthesized parent, the orphan list, and the
`parent_lookup_miss` counter; the folding of attachments into the nested
tree adds no further observable relevant to these claims. -/

/-- The `delta_resolvers_mode` configuration value. -/
inductive ResolverMode where
  | off
  | exact
  | fuzzy
deriving DecidableEq

/-- Modelled from the spec: a parent reference `{path, ids}` carried by a
merged-graph node (spec §3, BatchIR/MergedGraph). -/
structure ParentRef where
  path : String
  ids : List (String × String)
deriving DecidableEq

/-- Modelled from the spec: a node of the merged graph — canonical path,
identity-field values, properties, and optional parent reference. -/
structure PNode where
  path : String
  ids : List (String × String)
  properties : List (String × String)
  parent : Option ParentRef
deriving DecidableEq

/-- Case-folded (and Unicode-confusable normalized — the identity on the
ASCII fragment modelled here) canonical form of an identity value. -/
def canonicalIdValue (s : String) : String := strToLower s

/-- Near-miss identity match (§4.5): same identity keys in order, values
equal after canonical normalization. -/
def nearMissIds (a b : List (String × String)) : Bool :=
  a.length == b.length &&
  (a.zip b).all (fun p => p.1.1 == p.2.1 && canonicalIdValue p.1.2 == canonicalIdValue p.2.2)

/-- The candidate parents of a declared parent path: all graph nodes sitting
at that path. -/
def candidatesAt (nodes : List PNode) (path : String) : List PNode :=
  nodes.filter (fun n => n.path == path)

/-- Modelled from the spec: the synthesized placeholder parent of the
orphan-salvage rule — a node at the declared parent path carrying exactly
the child's declared parent ids (§4.5 step 4, §4.7 "Parent salvage"). -/
def synthParent (pref : ParentRef) : PNode :=
  { path := pref.path, ids := pref.ids, properties := pref.ids, parent := Option.none }

/-- Outcome of parent resolution for one node. -/
inductive Outcome where
  | root
  | attached (p : PNode)
  | salvaged (p : PNode)
  | orphaned
deriving DecidableEq

/-- Modelled from the spec: the parent-resolution cascade (§4.5 step 4,
§4.7).  A node without a parent reference is a root.  With empty declared
parent ids: attach when exactly one candidate parent exists, salvage a
placeholder when none exists, and refuse positionally (orphan) when several
exist.  With non-empty declared ids: exact fingerprint match first; then,
only under `"fuzzy"` resolvers, near-miss repair when exactly one candidate
is a near miss, else single-candidate repair when exactly one parent sits at
the path; otherwise synthesize the declared parent. -/
def resolveParent (mode : ResolverMode) (nodes : List PNode) (c : PNode) : Outcome :=
  match c.parent with
  | Option.none => Outcome.root
  | some pref =>
    if pref.ids.isEmpty then
      match candidatesAt nodes pref.path with
      | [] => Outcome.salvaged (synthParent pref)
      | [p] => Outcome.attached p
      | _ => Outcome.orphaned
    else
      match (candidatesAt nodes pref.path).find? (fun n => n.ids == pref.ids) with
      | some p => Outcome.attached p
      | Option.none =>
        if mode == ResolverMode.fuzzy then
          match (candidatesAt nodes pref.path).filter (fun n => nearMissIds n.ids pref.ids) with
          | [p] => Outcome.attached p
          | _ =>
            match candidatesAt nodes pref.path with
            | [p] => Outcome.attached p
            | _ => Outcome.salvaged (synthParent pref)
        else Outcome.salvaged (synthParent pref)

/-- `true` exactly on the `orphaned` outcome. -/
def isOrphanedOutcome : Outcome → Bool
  | Outcome.orphaned => true
  | Outcome.root => false
  | Outcome.attached _ => false
  | Outcome.salvaged _ => false

/-- The resolution observables of the projection: child→parent attachments
(to existing or synthesized parents), the synthesized parents, the orphans
collected into `__orphans__`, and `parent_lookup_miss`. -/
structure ProjResult where
  attachments : List (PNode × PNode)
  synthesized : List PNode
  orphans : List PNode
  parent_lookup_miss : Nat
deriving DecidableEq

/-- Modelled from the spec: the parent-resolution observables of
`project_graph_to_template_root` — every node is resolved against the full
merged graph; attached and salvaged children appear in `attachments` (under
the existing resp. synthesized parent), positional refusals land in
`__orphans__`, and `parent_lookup_miss` counts exactly the orphaned
children (§4.7). -/
def project_graph_to_template_root (nodes : List PNode) (mode : ResolverMode) :
    ProjResult :=
  { attachments := nodes.filterMap (fun c =>
      match resolveParent mode nodes c with
      | Outcome.attached p => some (c, p)
      | Outcome.salvaged p => some (c, p)
      | Outcome.root => Option.none
      | Outcome.orphaned => Option.none)
    synthesized := nodes.filterMap (fun c =>
      match resolveParent mode nodes c with
      | Outcome.salvaged p => some p
      | Outcome.attached _ => Option.none
      | Outcome.root => Option.none
      | Outcome.orphaned => Option.none)
    orphans := nodes.filter (fun c => isOrphanedOutcome (resolveParent mode nodes c))
    parent_lookup_miss :=
      (nodes.filter (fun c => isOrphanedOutcome (resolveParent mode nodes c))).length }

/-- A node is positionally refused: it declares a parent with empty ids at a
path where at least two candidate parents sit. -/
def positionalRefused (nodes : List PNode) (n : PNode) : Bool :=
  match n.parent with
  | some pr => pr.ids.isEmpty && decide (2 ≤ (candidatesAt nodes pr.path).length)
  | Option.none => false

theorem resolveParent_orphaned_of_multi_empty
    (mode : ResolverMode) (nodes : List PNode) {c : PNode} {pref : ParentRef}
    (hp : c.parent = some pref) (hids : pref.ids = [])
    (hmulti : 2 ≤ (candidatesAt nodes pref.path).length) :
    resolveParent mode nodes c = Outcome.orphaned := by
  simp only [resolveParent, hp]
  rw [hids]
  simp only [List.isEmpty_nil, if_true]
  generalize hcand : candidatesAt nodes pref.path = cands at hmulti ⊢
  rcases cands with _ | ⟨p1, _ | ⟨p2, rest2⟩⟩
  · simp at hmulti
  · simp at hmulti
  · rfl

theorem resolveParent_salvaged_of_absent
    (nodes : List PNode) {c : PNode} {pref : ParentRef}
    (hp : c.parent = some pref) (hids : pref.ids ≠ [])
    (habsent : ∀ n ∈ nodes, ¬(n.path = pref.path ∧ n.ids = pref.ids)) :
    resolveParent ResolverMode.off nodes c = Outcome.salvaged (synthParent pref) := by
  have hfind : (candidatesAt nodes pref.path).find? (fun n => n.ids == pref.ids) =
      Option.none := by
    rw [List.find?_eq_none]
    intro n hn
    have hn2 := List.mem_filter.mp hn
    intro hbeq
    exact habsent n hn2.1 ⟨by simpa using hn2.2, by simpa using hbeq⟩
  simp only [resolveParent, hp]
  rw [if_neg (by simp [hids]), hfind]
  rfl

theorem resolveParent_fuzzy_near_single
    (nodes : List PNode) {c : PNode} {pref : ParentRef} {p : PNode}
    (hp : c.parent = some pref) (hids : pref.ids ≠ [])
    (hnoexact : (candidatesAt nodes pref.path).find? (fun n => n.ids == pref.ids) =
      Option.none)
    (hnear : (candidatesAt nodes pref.path).filter (fun n => nearMissIds n.ids pref.ids) =
      [p]) :
    resolveParent ResolverMode.fuzzy nodes c = Outcome.attached p := by
  simp only [resolveParent, hp]
  rw [if_neg (by simp [hids]), hnoexact]
  rw [if_pos (by decide), hnear]

theorem resolveParent_fuzzy_sole_candidate
    (nodes : List PNode) {c : PNode} {pref : ParentRef} {p : PNode}
    (hp : c.parent = some pref) (hids : pref.ids ≠ [])
    (hnoexact : (candidatesAt nodes pref.path).find? (fun n => n.ids == pref.ids) =
      Option.none)
    (hcand : candidatesAt nodes pref.path = [p]) :
    resolveParent ResolverMode.fuzzy nodes c = Outcome.attached p := by
  simp only [resolveParent, hp]
  rw [if_neg (by simp [hids]), hnoexact]
  rw [if_pos (by decide), hcand]
  rcases hf : nearMissIds p.ids pref.ids with _ | _
  · simp [List.filter, hf]
  · simp [List.filter, hf]

theorem resolveParent_fuzzy_multi_near
    (nodes : List PNode) {c : PNode} {pref : ParentRef}
    (hp : c.parent = some pref) (hids : pref.ids ≠ [])
    (hnoexact : (candidatesAt nodes pref.path).find? (fun n => n.ids == pref.ids) =
      Option.none)
    (hnear2 : 2 ≤ ((candidatesAt nodes pref.path).filter
      (fun n => nearMissIds n.ids pref.ids)).length) :
    resolveParent ResolverMode.fuzzy nodes c = Outcome.salvaged (synthParent pref) := by
  have hc2 : 2 ≤ (candidatesAt nodes pref.path).length :=
    le_trans hnear2 (List.length_filter_le _ _)
  simp only [resolveParent, hp]
  rw [if_neg (by simp [hids]), hnoexact]
  rw [if_pos (by decide)]
  generalize hcand : candidatesAt nodes pref.path = cands at hnear2 hc2 ⊢
  generalize hnear : cands.filter (fun n => nearMissIds n.ids pref.ids) = near at hnear2 ⊢
  rcases near with _ | ⟨q1, _ | ⟨q2, nrest2⟩⟩
  · simp at hnear2
  · simp at hnear2
  · rcases cands with _ | ⟨p1, _ | ⟨p2, rest2⟩⟩
    · simp at hc2
    · simp at hc2
    · rfl

theorem attachments_mem_of_attached {mode : ResolverMode} {nodes : List PNode}
    {c p : PNode} (hc : c ∈ nodes)
    (h : resolveParent mode nodes c = Outcome.attached p) :
    (c, p) ∈ (project_graph_to_template_root nodes mode).attachments := by
  simp only [project_graph_to_template_root]
  rw [List.mem_filterMap]
  exact ⟨c, hc, by rw [h]⟩

theorem attachments_mem_of_salvaged {mode : ResolverMode} {nodes : List PNode}
    {c p : PNode} (hc : c ∈ nodes)
    (h : resolveParent mode nodes c = Outcome.salvaged p) :
    (c, p) ∈ (project_graph_to_template_root nodes mode).attachments := by
  simp only [project_graph_to_template_root]
  rw [List.mem_filterMap]
  exact ⟨c, hc, by rw [h]⟩

theorem synthesized_mem_of_salvaged {mode : ResolverMode} {nodes : List PNode}
    {c p : PNode} (hc : c ∈ nodes)
    (h : resolveParent mode nodes c = Outcome.salvaged p) :
    p ∈ (project_graph_to_template_root nodes mode).synthesized := by
  simp only [project_graph_to_template_root]
  rw [List.mem_filterMap]
  exact ⟨c, hc, by rw [h]⟩

theorem orphans_mem {mode : ResolverMode} {nodes : List PNode} {c : PNode}
    (hc : c ∈ nodes) (h : resolveParent mode nodes c = Outcome.orphaned) :
    c ∈ (project_graph_to_template_root nodes mode).orphans := by
  simp only [project_graph_to_template_root]
  rw [List.mem_filter]
  exact ⟨hc, by rw [h]; rfl⟩

theorem not_mem_orphans {mode : ResolverMode} {nodes : List PNode} {c : PNode}
    (h : resolveParent mode nodes c ≠ Outcome.orphaned) :
    c ∉ (project_graph_to_template_root nodes mode).orphans := by
  intro hmem
  simp only [project_graph_to_template_root] at hmem
  have := (List.mem_filter.mp hmem).2
  rcases hr : resolveParent mode nodes c with _ | q | q | _ <;> rw [hr] at this <;>
    simp [isOrphanedOutcome] at this
  exact h hr

theorem not_mem_attachments_of_orphaned {mode : ResolverMode} {nodes : List PNode}
    {c : PNode} (h : resolveParent mode nodes c = Outcome.orphaned) (p : PNode) :
    (c, p) ∉ (project_graph_to_template_root nodes mode).attachments := by
  intro hmem
  simp only [project_graph_to_template_root] at hmem
  rw [List.mem_filterMap] at hmem
  obtain ⟨a, _, hsome⟩ := hmem
  rcases hra : resolveParent mode nodes a with _ | q | q | _ <;> rw [hra] at hsome <;>
    simp at hsome
  · rw [hsome.1] at hra
    rw [hra] at h
    cases h
  · rw [hsome.1] at hra
    rw [hra] at h
    cases h

theorem length_filter_mono {α : Type} (p q : α → Bool) :
    ∀ l : List α, (∀ x ∈ l, p x = true → q x = true) →
      (l.filter p).length ≤ (l.filter q).length := by
  intro l
  induction l with
  | nil => intro _; simp
  | cons x rest ih =>
      intro h
      have htail := ih (fun y hy => h y (by simp [hy]))
      rcases hpx : p x with _ | _
      · rw [List.filter_cons, if_neg (by simp [hpx])]
        rcases hqx : q x with _ | _
        · rw [List.filter_cons, if_neg (by simp [hqx])]
          exact htail
        · rw [List.filter_cons, if_pos (by simp [hqx])]
          exact le_trans htail (by simp)
      · have hqx : q x = true := h x (by simp) hpx
        rw [List.filter_cons, if_pos (by simp [hpx]), List.filter_cons,
          if_pos (by simp [hqx])]
        simpa using htail

/-- **C1** (spec-modelled): positional refusal.  In every merged graph, a
child whose declared parent ids are empty while two or more candidate
parents sit at the declared parent path is never attached to any parent: it
lands in the `__orphans__` list, and `parent_lookup_miss` is at least the
number of such children (each contributes one). -/
theorem projection_positional_refusal
    (mode : ResolverMode) (nodes : List PNode) (c : PNode) (pref : ParentRef)
    (hc : c ∈ nodes) (hp : c.parent = some pref) (hids : pref.ids = [])
    (hmulti : 2 ≤ (candidatesAt nodes pref.path).length) :
    c ∈ (project_graph_to_template_root nodes mode).orphans ∧
    (∀ p, (c, p) ∉ (project_graph_to_template_root nodes mode).attachments) ∧
    (nodes.filter (positionalRefused nodes)).length ≤
      (project_graph_to_template_root nodes mode).parent_lookup_miss := by
  have hres := resolveParent_orphaned_of_multi_empty mode nodes hp hids hmulti
  refine ⟨orphans_mem hc hres, fun p => not_mem_attachments_of_orphaned hres p, ?_⟩
  apply length_filter_mono
  intro n _ hpos
  rcases hpar : n.parent with _ | pr
  · rw [positionalRefused, hpar] at hpos
    cases hpos
  · rw [positionalRefused, hpar, Bool.and_eq_true] at hpos
    have h1 : pr.ids = [] := by simpa using hpos.1
    have h2 : 2 ≤ (candidatesAt nodes pr.path).length := by simpa using hpos.2
    rw [resolveParent_orphaned_of_multi_empty mode nodes hpar h1 h2]
    rfl

/-- The positional-refusal scenario of the unit tests: a root, two
`line_items[]` parents, and two `item` children declaring a parent at
`line_items[]` with empty ids. -/
def posRefusalGraph : List PNode :=
  [⟨"", [("document_number", "INV-102")], [("document_number", "INV-102")], Option.none⟩,
   ⟨"line_items[]", [("line_number", "1")], [("line_number", "1")], some ⟨"", []⟩⟩,
   ⟨"line_items[]", [("line_number", "2")], [("line_number", "2")], some ⟨"", []⟩⟩,
   ⟨"line_items[].item", [("item_code", "SKU-POS-1")], [("item_code", "SKU-POS-1")],
      some ⟨"line_items[]", []⟩⟩,
   ⟨"line_items[].item", [("item_code", "SKU-POS-2")], [("item_code", "SKU-POS-2")],
      some ⟨"line_items[]", []⟩⟩]

/-- Witness for `projection_positional_refusal` on the test scenario: the
first `item` child is orphaned, attached nowhere, and the refused children
are counted by `parent_lookup_miss`. -/
theorem projection_positional_refusal_witness :
    (⟨"line_items[].item", [("item_code", "SKU-POS-1")], [("item_code", "SKU-POS-1")],
        some ⟨"line_items[]", []⟩⟩ : PNode) ∈
      (project_graph_to_template_root posRefusalGraph ResolverMode.off).orphans ∧
    (∀ p, ((⟨"line_items[].item", [("item_code", "SKU-POS-1")], [("item_code", "SKU-POS-1")],
        some ⟨"line_items[]", []⟩⟩ : PNode), p) ∉
      (project_graph_to_template_root posRefusalGraph ResolverMode.off).attachments) ∧
    (posRefusalGraph.filter (positionalRefused posRefusalGraph)).length ≤
      (project_graph_to_template_root posRefusalGraph ResolverMode.off).parent_lookup_miss :=
  projection_positional_refusal ResolverMode.off posRefusalGraph _ ⟨"line_items[]", []⟩
    (by decide) rfl rfl (by decide)

/-- **C2** (spec-modelled): parent salvage.  When a child's declared parent
(path plus non-empty ids) matches no node of the graph, the projector (with
resolvers off, the default) synthesizes a parent at the declared path
carrying exactly the declared ids, attaches the child under it, and the
child contributes nothing to `parent_lookup_miss` (which counts exactly the
orphans, and the child is not one). -/
theorem projection_parent_salvage
    (nodes : List PNode) (c : PNode) (pref : ParentRef)
    (hc : c ∈ nodes) (hp : c.parent = some pref) (hids : pref.ids ≠ [])
    (habsent : ∀ n ∈ nodes, ¬(n.path = pref.path ∧ n.ids = pref.ids)) :
    (synthParent pref).path = pref.path ∧ (synthParent pref).ids = pref.ids ∧
    synthParent pref ∈ (project_graph_to_template_root nodes ResolverMode.off).synthesized ∧
    (c, synthParent pref) ∈
      (project_graph_to_template_root nodes ResolverMode.off).attachments ∧
    c ∉ (project_graph_to_template_root nodes ResolverMode.off).orphans ∧
    (project_graph_to_template_root nodes ResolverMode.off).parent_lookup_miss =
      ((project_graph_to_template_root nodes ResolverMode.off).orphans).length := by
  have hres := resolveParent_salvaged_of_absent nodes hp hids habsent
  exact ⟨rfl, rfl, synthesized_mem_of_salvaged hc hres,
    attachments_mem_of_salvaged hc hres,
    not_mem_orphans (by rw [hres]; intro h; cases h), rfl⟩

/-- The salvage scenario of the unit tests: a root and an `item` child
declaring a parent `line_items[] {line_number: "404"}` that does not exist
in the graph. -/
def salvageGraph : List PNode :=
  [⟨"", [("document_number", "INV-99")], [("document_number", "INV-99")], Option.none⟩,
   ⟨"line_items[].item", [("item_code", "SKU-X")],
      [("item_code", "SKU-X"), ("name", "Standalone")],
      some ⟨"line_items[]", [("line_number", "404")]⟩⟩]

/-- Witness for `projection_parent_salvage` on the test scenario: the
missing `line_items[]` parent with `line_number = "404"` is synthesized and
the child attaches under it with no parent-lookup miss. -/
theorem projection_parent_salvage_witness :
    (synthParent ⟨"line_items[]", [("line_number", "404")]⟩).path = "line_items[]" ∧
    (synthParent ⟨"line_items[]", [("line_number", "404")]⟩).ids =
      [("line_number", "404")] ∧
    synthParent ⟨"line_items[]", [("line_number", "404")]⟩ ∈
      (project_graph_to_template_root salvageGraph ResolverMode.off).synthesized ∧
    ((⟨"line_items[].item", [("item_code", "SKU-X")],
        [("item_code", "SKU-X"), ("name", "Standalone")],
        some ⟨"line_items[]", [("line_number", "404")]⟩⟩ : PNode),
      synthParent ⟨"line_items[]", [("line_number", "404")]⟩) ∈
      (project_graph_to_template_root salvageGraph ResolverMode.off).attachments ∧
    (⟨"line_items[].item", [("item_code", "SKU-X")],
        [("item_code", "SKU-X"), ("name", "Standalone")],
        some ⟨"line_items[]", [("line_number", "404")]⟩⟩ : PNode) ∉
      (project_graph_to_template_root salvageGraph ResolverMode.off).orphans ∧
    (project_graph_to_template_root salvageGraph ResolverMode.off).parent_lookup_miss =
      ((project_graph_to_template_root salvageGraph ResolverMode.off).orphans).length :=
  projection_parent_salvage salvageGraph _ ⟨"line_items[]", [("line_number", "404")]⟩
    (by decide) rfl (by decide) (by decide)

/-- **C5** (spec-modelled): fuzzy repair.  With fuzzy resolvers enabled and
a child whose declared parent path is correct but whose declared non-empty
ids match no parent exactly: when exactly one candidate parent is a
near-miss (case-folded / confusable-normalized equal ids), the child is
re-pointed to that existing parent; when the path holds exactly one parent
(the "0" vs sole parent "1" case), the child is re-pointed to it; and when
two or more candidates are near-misses the repair is *not* applied — the
declared parent is synthesized instead (repair only on a singleton candidate
set). -/
theorem projection_fuzzy_repair
    (nodes : List PNode) (c : PNode) (pref : ParentRef)
    (hc : c ∈ nodes) (hp : c.parent = some pref) (hids : pref.ids ≠ [])
    (hnoexact : (candidatesAt nodes pref.path).find? (fun n => n.ids == pref.ids) =
      Option.none) :
    (∀ p, (candidatesAt nodes pref.path).filter (fun n => nearMissIds n.ids pref.ids) =
        [p] →
      resolveParent ResolverMode.fuzzy nodes c = Outcome.attached p ∧
      (c, p) ∈ (project_graph_to_template_root nodes ResolverMode.fuzzy).attachments) ∧
    (∀ p, candidatesAt nodes pref.path = [p] →
      resolveParent ResolverMode.fuzzy nodes c = Outcome.attached p ∧
      (c, p) ∈ (project_graph_to_template_root nodes ResolverMode.fuzzy).attachments) ∧
    (2 ≤ ((candidatesAt nodes pref.path).filter
        (fun n => nearMissIds n.ids pref.ids)).length →
      resolveParent ResolverMode.fuzzy nodes c = Outcome.salvaged (synthParent pref)) := by
  refine ⟨fun p hnear => ?_, fun p hcand => ?_, fun h2 => ?_⟩
  · have hres := resolveParent_fuzzy_near_single nodes hp hids hnoexact hnear
    exact ⟨hres, attachments_mem_of_attached hc hres⟩
  · have hres := resolveParent_fuzzy_sole_candidate nodes hp hids hnoexact hcand
    exact ⟨hres, attachments_mem_of_attached hc hres⟩
  · exact resolveParent_fuzzy_multi_near nodes hp hids hnoexact h2

/-- The canonical-id repair scenario of the unit tests: parents `LIGNE-A`
and `LIGNE-B`, child declaring `ligne-a`. -/
def fuzzyCanonGraph : List PNode :=
  [⟨"", [("document_number", "INV-103")], [("document_number", "INV-103")], Option.none⟩,
   ⟨"line_items[]", [("line_number", "LIGNE-A")], [("line_number", "LIGNE-A")],
      some ⟨"", []⟩⟩,
   ⟨"line_items[]", [("line_number", "LIGNE-B")], [("line_number", "LIGNE-B")],
      some ⟨"", []⟩⟩,
   ⟨"line_items[].item", [("item_code", "SKU-CANON")], [("item_code", "SKU-CANON")],
      some ⟨"line_items[]", [("line_number", "ligne-a")]⟩⟩]

/-- The off-by-one repair scenario of the unit tests: a sole parent
`line_number = "1"`, child declaring `"0"`. -/
def fuzzySoleGraph : List PNode :=
  [⟨"", [("document_number", "INV-101")], [("document_number", "INV-101")], Option.none⟩,
   ⟨"line_items[]", [("line_number", "1")], [("line_number", "1")], some ⟨"", []⟩⟩,
   ⟨"line_items[].item", [("item_code", "SKU-101")], [("item_code", "SKU-101")],
      some ⟨"line_items[]", [("line_number", "0")]⟩⟩]

/-- Witness for `projection_fuzzy_repair`: with fuzzy resolvers, the
`ligne-a` child re-points to the existing `LIGNE-A` parent (unique
near-miss among two candidates), and the `"0"` child re-points to the sole
`"1"` parent. -/
theorem projection_fuzzy_repair_witness :
    resolveParent ResolverMode.fuzzy fuzzyCanonGraph
        ⟨"line_items[].item", [("item_code", "SKU-CANON")], [("item_code", "SKU-CANON")],
          some ⟨"line_items[]", [("line_number", "ligne-a")]⟩⟩ =
      Outcome.attached ⟨"line_items[]", [("line_number", "LIGNE-A")],
        [("line_number", "LIGNE-A")], some ⟨"", []⟩⟩ ∧
    resolveParent ResolverMode.fuzzy fuzzySoleGraph
        ⟨"line_items[].item", [("item_code", "SKU-101")], [("item_code", "SKU-101")],
          some ⟨"line_items[]", [("line_number", "0")]⟩⟩ =
      Outcome.attached ⟨"line_items[]", [("line_number", "1")], [("line_number", "1")],
        some ⟨"", []⟩⟩ :=
  ⟨((projection_fuzzy_repair fuzzyCanonGraph _ ⟨"line_items[]", [("line_number", "ligne-a")]⟩
      (by decide) rfl (by decide) (by decide)).1 _ (by decide)).1,
   ((projection_fuzzy_repair fuzzySoleGraph _ ⟨"line_items[]", [("line_number", "0")]⟩
      (by decide) rfl (by decide) (by decide)).2.1 _ (by decide)).1⟩

/-! ### Chunk batcher (C9)

`docling_graph/core/extractors/chunk_batcher.py` is not part of the source
tree (only its unit tests are); the batcher is modelled from spec §4.2 over
the chunks' token sizes. -/

/-- Modelled from the spec: a batch — its id, the indices of its chunks in
input order, and the summed token size (§4.2). -/
structure ChunkBatch where
  batch_id : Nat
  chunk_indices : List Nat
  total_tokens : Nat
deriving DecidableEq

/-- Modelled from the spec: greedy first-fit packing preserving chunk order —
a running batch accumulates chunks until adding the next would exceed the
budget; an oversized chunk opens its own batch (`OversizedChunk` is
signalled but not fatal, §4.2).  State: remaining `(index, size)` pairs, the
current batch's indices (reversed) and its running total. -/
def greedyGo (budget : Nat) : List (Nat × Nat) → List Nat → Nat →
    List (List Nat × Nat)
  | [], cur, tot => if cur.isEmpty then [] else [(cur.reverse, tot)]
  | (i, s) :: rest, cur, tot =>
      if cur.isEmpty then greedyGo budget rest [i] s
      else if budget < tot + s then (cur.reverse, tot) :: greedyGo budget rest [i] s
      else greedyGo budget rest (i :: cur) (tot + s)

/-- Modelled from the spec: the tail-merge pass — the trailing batch is
merged into the preceding one when its size is below
`merge_threshold * budget` (threshold given as `thNum / thDen`) and the
combined size still fits the budget (§4.2). -/
def mergeTail (budget thNum thDen : Nat) : List (List Nat × Nat) →
    List (List Nat × Nat)
  | [] => []
  | [b] => [b]
  | b1 :: b2 :: rest =>
      match rest with
      | [] =>
          if b2.2 * thDen < thNum * budget ∧ b1.2 + b2.2 ≤ budget
          then [(b1.1 ++ b2.1, b1.2 + b2.2)]
          else [b1, b2]
      | r1 :: rrest => b1 :: mergeTail budget thNum thDen (b2 :: r1 :: rrest)

/-- Modelled from the spec: `ChunkBatcher.batch_chunks` over the token sizes
of the chunks — greedy first-fit, tail merge, then consecutive batch
numbering. -/
def batch_chunks (budget thNum thDen : Nat) (sizes : List Nat) : List ChunkBatch :=
  ((mergeTail budget thNum thDen (greedyGo budget sizes.enum [] 0)).enum).map
    (fun p => ⟨p.1, p.2.1, p.2.2⟩)

theorem mergeTail_cons_of_long (budget thNum thDen : Nat) (x : List Nat × Nat) :
    ∀ l : List (List Nat × Nat), 2 ≤ l.length →
      mergeTail budget thNum thDen (x :: l) = x :: mergeTail budget thNum thDen l := by
  intro l hl
  rcases l with _ | ⟨y, _ | ⟨z, r⟩⟩
  · simp at hl
  · simp at hl
  · rfl

theorem mergeTail_merges (budget thNum thDen : Nat) :
    ∀ (init : List (List Nat × Nat)) (b1 b2 : List Nat × Nat),
      b2.2 * thDen < thNum * budget → b1.2 + b2.2 ≤ budget →
      mergeTail budget thNum thDen (init ++ [b1, b2]) =
        init ++ [(b1.1 ++ b2.1, b1.2 + b2.2)] := by
  intro init
  induction init with
  | nil =>
      intro b1 b2 h1 h2
      show mergeTail budget thNum thDen (b1 :: b2 :: []) = _
      rw [mergeTail]
      rw [if_pos ⟨h1, h2⟩]
      rfl
  | cons x rest ih =>
      intro b1 b2 h1 h2
      rw [List.cons_append, mergeTail_cons_of_long budget thNum thDen x
        (rest ++ [b1, b2]) (by simp), ih b1 b2 h1 h2]
      rfl

/-- **C9** (spec-modelled): tail merging.  After the greedy pass, a trailing
batch whose token size is below `merge_threshold * budget` is merged into
the preceding batch whenever the combined size still fits the budget (for
any batch sequence produced by the greedy pass); and two consecutive small
chunks that fit the budget together come out of `batch_chunks` as exactly
one batch holding both chunks. -/
theorem chunk_batcher_tail_merge
    (budget thNum thDen : Nat) :
    (∀ (init : List (List Nat × Nat)) (b1 b2 : List Nat × Nat),
      b2.2 * thDen < thNum * budget → b1.2 + b2.2 ≤ budget →
      mergeTail budget thNum thDen (init ++ [b1, b2]) =
        init ++ [(b1.1 ++ b2.1, b1.2 + b2.2)]) ∧
    (∀ s1 s2 : Nat, s1 + s2 ≤ budget →
      batch_chunks budget thNum thDen [s1, s2] = [⟨0, [0, 1], s1 + s2⟩]) := by
  constructor
  · exact mergeTail_merges budget thNum thDen
  · intro s1 s2 hfit
    rw [batch_chunks]
    have henum : ([s1, s2] : List Nat).enum = [(0, s1), (1, s2)] := rfl
    rw [henum]
    rw [greedyGo]
    rw [if_pos (by rfl)]
    rw [greedyGo]
    rw [if_neg (by simp)]
    rw [if_neg (by omega)]
    rw [greedyGo]
    rw [if_neg (by simp)]
    rfl

/-- Witness for `chunk_batcher_tail_merge`: a sub-threshold trailing batch
merges into its predecessor, and chunk sizes 200 and 100 under a budget of
500 yield a single two-chunk batch. -/
theorem chunk_batcher_tail_merge_witness :
    mergeTail 500 85 100 [([0], 300), ([1], 100)] = [([0, 1], 400)] ∧
    batch_chunks 500 85 100 [200, 100] = [⟨0, [0, 1], 300⟩] :=
  ⟨(chunk_batcher_tail_merge 500 85 100).1 [] ([0], 300) ([1], 100)
      (by decide) (by decide),
   (chunk_batcher_tail_merge 500 85 100).2 200 100 (by decide)⟩

/-! ### Delta→direct fallback of the many-to-one strategy (C8)

`docling_graph/core/extractors/strategies/many_to_one.py` is not part of
the source tree (only its unit tests are); the fallback flow is modelled
from spec §4.9 and the strategy's unit tests. -/

/-- Modelled from the spec: the backend state visible to the fallback
logic — its mutable `extraction_contract` attribute. -/
structure Backend where
  extraction_contract : String
deriving DecidableEq

/-- Modelled from the spec: the observables of one
`delta`-contract extraction call: every `extract_from_markdown` (direct)
call with the contract value the backend held at that moment, and the
emitted trace event names. -/
structure FallbackLog where
  direct_calls : List String
  events : List String
deriving DecidableEq

/-- Modelled from the spec: the delta→direct fallback of the many-to-one
strategy (§4.9).  If the delta contract produced a model, return it — no
direct call, no fallback event.  Otherwise: remember the original contract,
switch `backend.extraction_contract` to `"direct"`, retry exactly once with
the full-document markdown (whose outcome is `directResult`), restore the
original contract, emit `delta_failed_then_direct_fallback`, and return the
fallback model. -/
def extract_with_delta_fallback {M : Type} (b : Backend)
    (deltaResult directResult : Option M) : Option M × Backend × FallbackLog :=
  match deltaResult with
  | some m => (some m, b, ⟨[], []⟩)
  | Option.none =>
      (directResult, ⟨b.extraction_contract⟩,
       ⟨[(⟨"direct"⟩ : Backend).extraction_contract],
        ["delta_failed_then_direct_fallback"]⟩)

/-- **C8** (spec-modelled): when the delta contract yields no model, the
strategy retries exactly once in direct mode — the single direct call sees
`extraction_contract = "direct"`, the original contract value is restored
afterwards, the trace event `delta_failed_then_direct_fallback` is emitted,
and the direct model (when produced) is the returned result; when the delta
contract yields a model, no direct call happens and no fallback event is
emitted. -/
theorem delta_direct_fallback {M : Type} (b : Backend) (directResult : Option M) :
    (∀ dr : Option M, dr = Option.none →
      (extract_with_delta_fallback b dr directResult).1 = directResult ∧
      (extract_with_delta_fallback b dr directResult).2.2.direct_calls = ["direct"] ∧
      (extract_with_delta_fallback b dr directResult).2.1 = b ∧
      "delta_failed_then_direct_fallback" ∈
        (extract_with_delta_fallback b dr directResult).2.2.events) ∧
    (∀ m : M, (extract_with_delta_fallback b (some m) directResult).1 = some m ∧
      (extract_with_delta_fallback b (some m) directResult).2.2.direct_calls = [] ∧
      (extract_with_delta_fallback b (some m) directResult).2.2.events = []) := by
  constructor
  · intro dr hdr
    subst hdr
    exact ⟨rfl, rfl, rfl, by simp [extract_with_delta_fallback]⟩
  · intro m
    exact ⟨rfl, rfl, rfl⟩

/-- Witness for `delta_direct_fallback`: a `"delta"` backend whose delta
pass returns nothing and whose direct retry returns `"fallback"`. -/
theorem delta_direct_fallback_witness :
    (extract_with_delta_fallback (⟨"delta"⟩ : Backend) (Option.none : Option String)
      (some "fallback")).1 = some "fallback" ∧
    (extract_with_delta_fallback (⟨"delta"⟩ : Backend) (Option.none : Option String)
      (some "fallback")).2.2.direct_calls = ["direct"] ∧
    (extract_with_delta_fallback (⟨"delta"⟩ : Backend) (Option.none : Option String)
      (some "fallback")).2.1 = (⟨"delta"⟩ : Backend) ∧
    "delta_failed_then_direct_fallback" ∈
      (extract_with_delta_fallback (⟨"delta"⟩ : Backend) (Option.none : Option String)
        (some "fallback")).2.2.events :=
  (delta_direct_fallback (⟨"delta"⟩ : Backend) (some "fallback")).1 Option.none rfl

end DoclingGraph
